import Mathlib

/-!
# CPA-Dashboard backend core — shallow embedding and verification

This file embeds the core logic of `backend/app/crud.py` (time-sync ledger,
aggregation engine, legacy-compatibility resolver, reminder-set generator)
as executable Lean definitions and proves the specification claims about it.

Modelling conventions:
* The SQLAlchemy session / database is an explicit `DB` state record; each
  CRUD function is a pure state transformer.  Functions that `raise` are
  modelled with `Except String`.
* Python `int` is `Int` (arbitrary precision, like Python).
* Python `float` appears only as (a) hour values `ms / 3_600_000.0` and
  (b) JSON number literals with a fraction/exponent; both are modelled as
  exact rationals.  The only float facts the code relies on (positivity of
  `ms / 3.6e6` for `ms ≥ 1`, truncation by `int(...)`) are preserved by
  exact rational arithmetic for every value that fits in a float.
* `datetime.date` arithmetic is modelled on `Int` day numbers (proleptic
  Gregorian, day 0 = 0001-01-01); the model ignores Python's year 1..9999
  hard range, which the code can only leave in the last week of year 9999
  or by asking for a streak window reaching before 0001-01-01.
-/

namespace CPADashboard

/-! ## Time-sync ledger (`study_time_sync_sessions` table)

A row holds the four-part identity and the highest cumulative total seen.
The table has a unique constraint on the identity; we model the table as a
row list, with `.first()` = first match (as SQLAlchemy returns some match).
-/

/-- The four-part identity of `StudyTimeSyncSession`
(unique constraint `uq_study_time_sync`). -/
structure LedgerKey where
  user_id : String
  date_key : String
  subject : String
  client_session_id : String
deriving DecidableEq, Repr

/-- One row of `study_time_sync_sessions`. -/
structure LedgerEntry where
  key : LedgerKey
  last_total_ms : Int
deriving DecidableEq, Repr

/-- The `study_time_sync_sessions` table. -/
abbrev Ledger := List LedgerEntry

/-- `db.query(StudyTimeSyncSession).filter(identity).first()`, projected to
`last_total_ms` (first matching row). -/
def lookupEntry : Ledger → LedgerKey → Option Int
  | [], _ => none
  | e :: rest, k => if e.key = k then some e.last_total_ms else lookupEntry rest k

/-- The stored total for an identity, an absent row reading as 0
(a fresh row is created with `last_total_ms=0`). -/
def storedMs (l : Ledger) (k : LedgerKey) : Int :=
  (lookupEntry l k).getD 0

/-- Update `last_total_ms` of the row fetched by `.first()` (the first
matching row). -/
def setEntry (l : Ledger) (k : LedgerKey) (v : Int) : Ledger :=
  match l with
  | [] => []
  | e :: rest =>
    if e.key = k then { e with last_total_ms := v } :: rest
    else e :: setEntry rest k v

/-- `crud.apply_study_time_total_ms`, the ledger part: look the identity up
(creating a `last_total_ms=0` row if absent), return
`delta_ms = max(total_ms - last_ms, 0)`, and persist
`last_total_ms = total_ms` iff `total_ms > last_ms`. -/
def applyLedgerTotalMs (l : Ledger) (k : LedgerKey) (total_ms : Int) :
    Int × Ledger :=
  let p : Ledger × Int :=
    match lookupEntry l k with
    | some v => (l, v)
    | none => (l ++ [⟨k, 0⟩], 0)
  let l1 := p.1
  let last_ms := p.2
  let delta_ms := max (total_ms - last_ms) 0
  let l2 := if last_ms < total_ms then setEntry l1 k total_ms else l1
  (delta_ms, l2)

/-- Repeated ledger application of a sequence of reported totals to one
identity, collecting the returned deltas. -/
def applySeqLedger (l : Ledger) (k : LedgerKey) : List Int → List Int × Ledger
  | [] => ([], l)
  | t :: ts =>
    let r := applyLedgerTotalMs l k t
    let rest := applySeqLedger r.2 k ts
    (r.1 :: rest.1, rest.2)

/-! ## Database state

The remaining tables the core touches.  Timestamps (`created_at`,
`updated_at`) are not modelled; where the code orders by
`created_at desc, id desc` we order by `id desc`, which agrees with it
because rows are created with increasing ids as time advances.
Each table's id sequence is a counter in the state. -/

/-- A `study_progress` / `study_progress_legacy` row (fields the core
reads or could write). -/
structure StudyProgressRow where
  id : Nat
  subject : String
  topic : String
  progress_percent : ℚ
  study_hours : ℚ
  notes : Option String
deriving DecidableEq, Repr

/-- A `todos` row.  `due_date` is a UTC instant in milliseconds since
1970-01-01T00:00Z (negative values = earlier instants). -/
structure TodoRow where
  id : Nat
  title : String
  subject : Option String
  due_date : Option Int
  project_id : Option Nat
  completed : Bool
deriving DecidableEq, Repr

/-- A `review_set_lists` row. -/
structure ReviewSetListRow where
  id : Nat
  name : String
deriving DecidableEq, Repr

/-- A `review_set_items` row. -/
structure ReviewSetItemRow where
  id : Nat
  set_list_id : Nat
  offset_days : Int
deriving DecidableEq, Repr

/-- The database state visible to the core.  `settings` is the key-value
store (`key` unique); `tables_ready` says whether the migration created
`review_set_lists` / `review_set_items` (what `_review_set_tables_ready`
probes). -/
structure DB where
  tables_ready : Bool
  ledger : Ledger
  progress : List StudyProgressRow
  todos : List TodoRow
  settings : List (String × String)
  review_lists : List ReviewSetListRow
  review_items : List ReviewSetItemRow
  next_list_id : Nat
  next_item_id : Nat
  next_todo_id : Nat
deriving Repr

/-- `crud.get_setting`: first row whose key matches (keys are unique). -/
def get_setting : List (String × String) → String → Option String
  | [], _ => none
  | p :: rest, key => if p.1 = key then some p.2 else get_setting rest key

/-- Value part of `crud.create_or_update_setting` on the settings list:
update the fetched row in place, or insert a new row. -/
def setSetting : List (String × String) → String → String → List (String × String)
  | [], key, value => [(key, value)]
  | p :: rest, key, value =>
    if p.1 = key then (key, value) :: rest
    else p :: setSetting rest key value

/-- `crud.create_or_update_setting`. -/
def create_or_update_setting (db : DB) (key value : String) : DB :=
  { db with settings := setSetting db.settings key value }

/-- `crud.apply_study_time_total_ms(db, user_id, date_key, subject,
client_session_id, total_ms)`.  Touches only the
`study_time_sync_sessions` table: the old write to
`StudyProgress(topic='学習時間')` is disabled in the source. -/
def apply_study_time_total_ms (db : DB) (k : LedgerKey) (total_ms : Int) :
    Int × DB :=
  let r := applyLedgerTotalMs db.ledger k total_ms
  (r.1, { db with ledger := r.2 })

/-- Sequenced form of `apply_study_time_total_ms` (a client retrying /
re-reporting cumulative totals for one identity). -/
def applySeq (db : DB) (k : LedgerKey) (ts : List Int) : List Int × DB :=
  let r := applySeqLedger db.ledger k ts
  (r.1, { db with ledger := r.2 })

/-! ## JSON values (`json.loads` results) and Python coercions

The settings store holds JSON text.  `Json` is the decoded value; number
literals decode to `.int` when written without fraction/exponent (Python
decodes them to `int`) and otherwise to `.float`, carried as the exact
rational value of the literal.  (CPython rounds such literals to binary
floats; rounding cannot move a value across an integer boundary or zero
for any literal the code meets, which is all the code observes.) -/

inductive Json where
  | null
  | bool (b : Bool)
  | int (n : Int)
  | float (q : ℚ)
  | str (s : String)
  | arr (elems : List Json)
  | obj (fields : List (String × Json))
deriving Inhabited, Repr

/-- `dict.get` on a decoded JSON object: Python keeps the last duplicate
key when building the dict. -/
def jsonGet (fields : List (String × Json)) (key : String) : Option Json :=
  match fields with
  | [] => none
  | p :: rest =>
    match jsonGet rest key with
    | some v => some v
    | none => if p.1 = key then some p.2 else none

/-- The whitespace set of Python `str.strip()` (ASCII part; non-ASCII
unicode spaces are not modelled). -/
def pyIsSpace (c : Char) : Bool :=
  c = ' ' || c = '\t' || c = '\n' || c = '\r' ||
    c = Char.ofNat 11 || c = Char.ofNat 12

/-- Python `str.strip()`. -/
def pyStrip (s : String) : String :=
  String.mk (((s.toList.dropWhile pyIsSpace).reverse.dropWhile pyIsSpace).reverse)

/-- Python `str.lower()` (ASCII part). -/
def pyLower (s : String) : String :=
  String.mk (s.toList.map Char.toLower)

/-- Python truthiness (`bool(x)`) of a decoded JSON value. -/
def pyTruthy : Json → Bool
  | .null => false
  | .bool b => b
  | .int n => n != 0
  | .float q => q != 0
  | .str s => s != ""
  | .arr xs => !xs.isEmpty
  | .obj fs => !fs.isEmpty

/-- Truncation of a rational toward zero, the value of Python `int(float)`
for floats that are exact. -/
def ratTrunc (q : ℚ) : Int := q.num.tdiv q.den

/-- Python `int(str)`: optional surrounding whitespace, optional sign,
then a non-empty digit run.  (Digit-group underscores and non-ASCII
digits, which CPython also accepts, are not modelled.) -/
def pyIntOfString (s : String) : Option Int :=
  let cs := (pyStrip s).toList
  let p : Bool × List Char :=
    match cs with
    | '-' :: rest => (true, rest)
    | '+' :: rest => (false, rest)
    | _ => (false, cs)
  if p.2.isEmpty || !(p.2.all Char.isDigit) then none
  else
    let n : Nat := p.2.foldl (fun a c => a * 10 + (c.toNat - 48)) 0
    some (if p.1 then -(n : Int) else (n : Int))

/-- Python `int(x)` on a decoded JSON value, `none` when it raises
(`TypeError` for null/list/dict, `ValueError` for a non-numeric string). -/
def pyInt : Json → Option Int
  | .int n => some n
  | .float q => some (ratTrunc q)
  | .bool b => some (if b then 1 else 0)
  | .str s => pyIntOfString s
  | .null | .arr _ | .obj _ => none

/-- Python `repr(x)` of a decoded JSON value (approximate for floats,
which Lean renders as exact rationals, and for quotes inside strings). -/
def pyRepr : Json → String
  | .null => "None"
  | .bool true => "True"
  | .bool false => "False"
  | .int n => toString n
  | .float q => toString q
  | .str s => "'" ++ s ++ "'"
  | .arr xs =>
    "[" ++ String.intercalate ", " (xs.attach.map (fun x => pyRepr x.1)) ++ "]"
  | .obj fs =>
    "\x7b" ++
      String.intercalate ", "
        (fs.attach.map (fun p => "'" ++ p.1.1 ++ "': " ++ pyRepr p.1.2)) ++
      "\x7d"
decreasing_by
  · have := List.sizeOf_lt_of_mem x.2
    simp only [Json.arr.sizeOf_spec]
    omega
  · have := List.sizeOf_lt_of_mem p.2
    have hp : sizeOf p.1.2 < sizeOf p.1 := by
      cases hp1 : p.1 with
      | mk a b => simp [hp1]; try omega
    simp only [Json.obj.sizeOf_spec]
    omega

/-- Python `str(x)` of a decoded JSON value. -/
def pyStr : Json → String
  | .str s => s
  | v => pyRepr v

/-! ### `json.loads` -/

/-- JSON insignificant whitespace. -/
def isJsonWs (c : Char) : Bool :=
  c = ' ' || c = '\t' || c = '\n' || c = '\r'

def skipWs : List Char → List Char
  | [] => []
  | c :: rest => if isJsonWs c then skipWs rest else c :: rest

def hexVal (c : Char) : Option Nat :=
  if '0' ≤ c ∧ c ≤ '9' then some (c.toNat - 48)
  else if 'a' ≤ c ∧ c ≤ 'f' then some (c.toNat - 87)
  else if 'A' ≤ c ∧ c ≤ 'F' then some (c.toNat - 55)
  else none

/-- Parse a JSON string body after the opening quote; returns the decoded
characters and the input after the closing quote.  (Surrogate-pair
recombination of `\uXXXX` escapes is not modelled.) -/
def parseStringBody : Nat → List Char → Option (List Char × List Char)
  | 0, _ => none
  | _ + 1, [] => none
  | fuel + 1, c :: rest =>
    if c = '"' then some ([], rest)
    else if c = '\\' then
      match rest with
      | [] => none
      | e :: rest2 =>
        let cont := fun (ch : Char) (rs : List Char) =>
          (parseStringBody fuel rs).map (fun r => (ch :: r.1, r.2))
        if e = '"' then cont '"' rest2
        else if e = '\\' then cont '\\' rest2
        else if e = '/' then cont '/' rest2
        else if e = 'b' then cont (Char.ofNat 8) rest2
        else if e = 'f' then cont (Char.ofNat 12) rest2
        else if e = 'n' then cont '\n' rest2
        else if e = 'r' then cont '\r' rest2
        else if e = 't' then cont '\t' rest2
        else if e = 'u' then
          match rest2 with
          | h1 :: h2 :: h3 :: h4 :: rest3 =>
            match hexVal h1, hexVal h2, hexVal h3, hexVal h4 with
            | some a, some b, some c3, some d =>
              cont (Char.ofNat (((a * 16 + b) * 16 + c3) * 16 + d)) rest3
            | _, _, _, _ => none
          | _ => none
        else none
    else (parseStringBody fuel rest).map (fun r => (c :: r.1, r.2))

def digitsToNat (ds : List Char) : Nat :=
  ds.foldl (fun a c => a * 10 + (c.toNat - 48)) 0

/-- Parse a JSON number literal (strict grammar: no leading zeros, no bare
`.5` / `1.`).  Fraction or exponent makes it a `.float`. -/
def parseNumber (cs : List Char) : Option (Json × List Char) :=
  let p : Bool × List Char :=
    match cs with
    | '-' :: r => (true, r)
    | _ => (false, cs)
  let neg := p.1
  let ip := p.2.takeWhile Char.isDigit
  let cs2 := p.2.dropWhile Char.isDigit
  if ip.isEmpty then none
  else if ip.length > 1 && ip.headD '0' = '0' then none
  else
    let ipv := digitsToNat ip
    let finishInt : Option (Json × List Char) :=
      some (.int (if neg then -(ipv : Int) else (ipv : Int)), cs2)
    let parseExp : List Char → Option (Int × List Char) := fun r =>
      let q : Bool × List Char :=
        match r with
        | '-' :: r2 => (true, r2)
        | '+' :: r2 => (false, r2)
        | _ => (false, r)
      let ed := q.2.takeWhile Char.isDigit
      let r3 := q.2.dropWhile Char.isDigit
      if ed.isEmpty then none
      else some ((if q.1 then -(digitsToNat ed : Int) else (digitsToNat ed : Int)), r3)
    let mkFloat : Nat → Nat → Int → List Char → Option (Json × List Char) :=
      fun mant flen e r =>
        let q : ℚ := (mant : ℚ) * (10 : ℚ) ^ (e - (flen : Int))
        some (.float (if neg then -q else q), r)
    match cs2 with
    | '.' :: r =>
      let fp := r.takeWhile Char.isDigit
      let cs3 := r.dropWhile Char.isDigit
      if fp.isEmpty then none
      else
        match cs3 with
        | 'e' :: r2 =>
          match parseExp r2 with
          | some (e, r3) => mkFloat (ipv * 10 ^ fp.length + digitsToNat fp) fp.length e r3
          | none => none
        | 'E' :: r2 =>
          match parseExp r2 with
          | some (e, r3) => mkFloat (ipv * 10 ^ fp.length + digitsToNat fp) fp.length e r3
          | none => none
        | _ => mkFloat (ipv * 10 ^ fp.length + digitsToNat fp) fp.length 0 cs3
    | 'e' :: r2 =>
      match parseExp r2 with
      | some (e, r3) => mkFloat ipv 0 e r3
      | none => none
    | 'E' :: r2 =>
      match parseExp r2 with
      | some (e, r3) => mkFloat ipv 0 e r3
      | none => none
    | _ => finishInt

mutual

/-- Parse one JSON value (after optional whitespace). -/
def parseVal : Nat → List Char → Option (Json × List Char)
  | 0, _ => none
  | fuel + 1, cs =>
    match skipWs cs with
    | [] => none
    | c :: rest =>
      if c = 'n' then
        match rest with
        | 'u' :: 'l' :: 'l' :: r => some (.null, r)
        | _ => none
      else if c = 't' then
        match rest with
        | 'r' :: 'u' :: 'e' :: r => some (.bool true, r)
        | _ => none
      else if c = 'f' then
        match rest with
        | 'a' :: 'l' :: 's' :: 'e' :: r => some (.bool false, r)
        | _ => none
      else if c = '"' then
        (parseStringBody (rest.length + 1) rest).map
          (fun r => (.str (String.mk r.1), r.2))
      else if c = '[' then
        match skipWs rest with
        | ']' :: r => some (.arr [], r)
        | cs1 => (parseArrItems fuel cs1).map (fun r => (.arr r.1, r.2))
      else if c = Char.ofNat 123 then
        match skipWs rest with
        | cs1 =>
          if cs1.headD ' ' = Char.ofNat 125 then some (.obj [], cs1.tail)
          else (parseObjItems fuel cs1).map (fun r => (.obj r.1, r.2))
      else parseNumber (c :: rest)

/-- Parse the comma-separated items of a non-empty array, including the
closing bracket. -/
def parseArrItems : Nat → List Char → Option (List Json × List Char)
  | 0, _ => none
  | fuel + 1, cs =>
    match parseVal fuel cs with
    | none => none
    | some (v, r) =>
      match skipWs r with
      | ',' :: r2 => (parseArrItems fuel r2).map (fun p => (v :: p.1, p.2))
      | ']' :: r2 => some ([v], r2)
      | _ => none

/-- Parse the comma-separated `"key": value` pairs of a non-empty object,
including the closing brace. -/
def parseObjItems : Nat → List Char → Option (List (String × Json) × List Char)
  | 0, _ => none
  | fuel + 1, cs =>
    match skipWs cs with
    | '"' :: r =>
      match parseStringBody (r.length + 1) r with
      | none => none
      | some (key, r2) =>
        match skipWs r2 with
        | ':' :: r3 =>
          match parseVal fuel r3 with
          | none => none
          | some (v, r4) =>
            match skipWs r4 with
            | ',' :: r5 =>
              (parseObjItems fuel r5).map
                (fun p => ((String.mk key, v) :: p.1, p.2))
            | c :: r5 =>
              if c = Char.ofNat 125 then some ([(String.mk key, v)], r5)
              else none
            | [] => none
        | _ => none
    | _ => none

end

/-- `json.loads`: one JSON document, nothing but whitespace after it.
(CPython's non-standard `NaN`/`Infinity` extensions are not modelled.) -/
def json_loads (s : String) : Option Json :=
  let cs := s.toList
  match parseVal (2 * cs.length + 4) cs with
  | some (v, rest) => if (skipWs rest).isEmpty then some v else none
  | none => none

/-! ## Legacy compatibility resolver and review-set CRUD -/

/-- The message of the `RuntimeError` raised when the review-set tables are
absent. -/
def notReadyMsg : String :=
  "review_set_lists tables are not ready (migration not applied)"

/-- `crud._review_set_tables_ready`: capability probe for the
migration-created tables. -/
def _review_set_tables_ready (db : DB) : Bool := db.tables_ready

/-- `crud._get_bool_setting`: the stored string, stripped; empty → default;
a JSON boolean → itself; else case-insensitive membership in the true/false
string sets; else default. -/
def _get_bool_setting (db : DB) (key : String) (dflt : Bool) : Bool :=
  match get_setting db.settings key with
  | none => dflt
  | some value =>
    let raw := pyStrip value
    if raw = "" then dflt
    else
      match json_loads raw with
      | some (.bool b) => b
      | _ =>
        let low := pyLower raw
        if low = "true" || low = "1" || low = "yes" || low = "y" || low = "t"
          then true
        else if low = "false" || low = "0" || low = "no" || low = "n" || low = "f"
          then false
        else dflt

/-- One `review_timing` entry processed by the seeding loop of
`crud._seed_review_set_lists_from_legacy_settings`.  Returns the new state
and whether a list was created.
`subject_name = str(timing.get("subject_name") or "").strip()`;
`review_days = timing.get("review_days") or []` followed by the
`isinstance(list)` / `len > 0` checks keeps exactly a non-empty JSON
array (anything falsy becomes the empty list, anything truthy that is not
a list fails `isinstance`).  Each day offset goes through `int(day)`,
skipping the days where that raises. -/
def seedEntry (db : DB) (t : Json) : DB × Bool :=
  match t with
  | .obj fs =>
    let subject_name :=
      pyStrip (match jsonGet fs "subject_name" with
       | some v => if pyTruthy v then pyStr v else ""
       | none => "")
    let days : Option (List Json) :=
      match jsonGet fs "review_days" with
      | some (.arr ds) => if ds.isEmpty then none else some ds
      | _ => none
    if subject_name = "" then (db, false)
    else
      match days with
      | none => (db, false)
      | some ds =>
        let listId := db.next_list_id
        let db1 := { db with
          review_lists :=
            db.review_lists ++ [⟨listId, subject_name ++ "（旧）"⟩],
          next_list_id := listId + 1 }
        let db2 := ds.foldl (fun acc day =>
          match pyInt day with
          | none => acc
          | some off => { acc with
              review_items :=
                acc.review_items ++ [⟨acc.next_item_id, listId, off⟩],
              next_item_id := acc.next_item_id + 1 }) db1
        (db2, true)
  | _ => (db, false)

/-- `crud._seed_review_set_lists_from_legacy_settings`: seed
`review_set_lists`/`review_set_items` from the legacy `review_timing`
setting.  Returns the number of lists created and the new state. -/
def _seed_review_set_lists_from_legacy_settings (db : DB) : Nat × DB :=
  if !db.tables_ready then (0, db)
  else if db.review_lists.length > 0 then (0, db)
  else
    match get_setting db.settings "review_timing" with
    | none => (0, db)
    | some value =>
      match json_loads value with
      | some (.arr timings) =>
        timings.foldl (fun (acc : Nat × DB) t =>
          let s := seedEntry acc.2 t
          (acc.1 + (if s.2 then 1 else 0), s.1)) (0, db)
      | _ => (0, db)

/-- Insertion into a sorted list (used to model SQL `ORDER BY`). -/
def insertSorted {α : Type} (le : α → α → Bool) (x : α) : List α → List α
  | [] => [x]
  | y :: ys => if le x y then x :: y :: ys else y :: insertSorted le x ys

/-- A stable sort modelling SQL `ORDER BY` result order. -/
def sortBy {α : Type} (le : α → α → Bool) (xs : List α) : List α :=
  xs.foldr (insertSorted le) []

/-- The read query of `get_all_review_set_lists`:
`order_by(created_at desc nullslast, id desc)` — modelled as id
descending, which agrees because ids increase with creation time — then
`offset(skip).limit(limit)`. -/
def listReviewSetListsQuery (db : DB) (skip limit : Nat) :
    List ReviewSetListRow :=
  ((sortBy (fun a b => decide (b.id ≤ a.id)) db.review_lists).drop skip).take
    limit

/-- `crud.get_all_review_set_lists`: not-ready raises; with the table
empty and `use_legacy_review_sets` reading true (default true), seed from
legacy settings; then return the ordered page. -/
def get_all_review_set_lists (db : DB) (skip limit : Nat) :
    Except String (List ReviewSetListRow × DB) :=
  if !db.tables_ready then .error notReadyMsg
  else
    let db1 :=
      if db.review_lists.length = 0 then
        if _get_bool_setting db "use_legacy_review_sets" true then
          (_seed_review_set_lists_from_legacy_settings db).2
        else db
      else db
    .ok (listReviewSetListsQuery db1 skip limit, db1)

/-- `crud.get_review_set_list`. -/
def get_review_set_list (db : DB) (set_list_id : Nat) :
    Except String (Option ReviewSetListRow) :=
  if !db.tables_ready then .error notReadyMsg
  else .ok (db.review_lists.find? (fun r => r.id == set_list_id))

/-- Payload schema `ReviewSetItemCreate` (`offset_days: int, ge=0` —
the non-negativity is enforced by pydantic at the API boundary, so it is
a hypothesis of the invariant theorems, not part of the state type). -/
structure ReviewSetItemCreate where
  offset_days : Int
deriving Repr

/-- Payload schema `ReviewSetListCreate`. -/
structure ReviewSetListCreate where
  name : String
  items : List ReviewSetItemCreate
deriving Repr

/-- `crud.create_review_set_list`: insert the list and its items, then
persist `use_legacy_review_sets = "false"` ("新運用へ移行したので、旧セットへの
フォールバックは以後禁止"). -/
def create_review_set_list (db : DB) (payload : ReviewSetListCreate) :
    Except String (ReviewSetListRow × DB) :=
  if !db.tables_ready then .error notReadyMsg
  else
    let listId := db.next_list_id
    let rs : ReviewSetListRow := ⟨listId, payload.name⟩
    let db1 := { db with
      review_lists := db.review_lists ++ [rs],
      next_list_id := listId + 1 }
    let db2 := payload.items.foldl (fun acc it =>
      { acc with
        review_items :=
          acc.review_items ++ [⟨acc.next_item_id, listId, it.offset_days⟩],
        next_item_id := acc.next_item_id + 1 }) db1
    let db3 := create_or_update_setting db2 "use_legacy_review_sets" "false"
    .ok (rs, db3)

/-- `crud.update_review_set_list` (payload `ReviewSetListUpdate`: optional
new name; `exclude_unset` drops an absent field). -/
def update_review_set_list (db : DB) (set_list_id : Nat)
    (name? : Option String) : Except String (Option ReviewSetListRow × DB) :=
  match get_review_set_list db set_list_id with
  | .error e => .error e
  | .ok none => .ok (none, db)
  | .ok (some rs) =>
    let rs' := match name? with
      | some n => { rs with name := n }
      | none => rs
    let db1 := { db with
      review_lists :=
        db.review_lists.map (fun r => if r.id = rs.id then rs' else r) }
    .ok (some rs', db1)

/-- `crud.delete_review_set_list`: delete the list (its items cascade via
`delete-orphan`); if the table is now empty, persist
`use_legacy_review_sets = "false"` ("復活防止"). -/
def delete_review_set_list (db : DB) (set_list_id : Nat) :
    Except String (Option ReviewSetListRow × DB) :=
  match get_review_set_list db set_list_id with
  | .error e => .error e
  | .ok none => .ok (none, db)
  | .ok (some rs) =>
    let db1 := { db with
      review_lists := db.review_lists.filter (fun r => r.id ≠ rs.id),
      review_items := db.review_items.filter (fun i => i.set_list_id ≠ rs.id) }
    let db2 :=
      if db1.review_lists.length = 0 then
        create_or_update_setting db1 "use_legacy_review_sets" "false"
      else db1
    .ok (some rs, db2)

/-- `crud.create_review_set_item`. -/
def create_review_set_item (db : DB) (set_list_id : Nat)
    (payload : ReviewSetItemCreate) :
    Except String (Option ReviewSetItemRow × DB) :=
  match get_review_set_list db set_list_id with
  | .error e => .error e
  | .ok none => .ok (none, db)
  | .ok (some _) =>
    let item : ReviewSetItemRow :=
      ⟨db.next_item_id, set_list_id, payload.offset_days⟩
    .ok (some item,
      { db with
        review_items := db.review_items ++ [item],
        next_item_id := db.next_item_id + 1 })

/-- `crud.update_review_set_item`. -/
def update_review_set_item (db : DB) (item_id : Nat) (offset_days : Int) :
    Except String (Option ReviewSetItemRow × DB) :=
  if !db.tables_ready then .error notReadyMsg
  else
    match db.review_items.find? (fun i => i.id == item_id) with
    | none => .ok (none, db)
    | some item =>
      let item' := { item with offset_days := offset_days }
      .ok (some item',
        { db with
          review_items :=
            db.review_items.map (fun i => if i.id = item_id then item' else i) })

/-- `crud.delete_review_set_item`. -/
def delete_review_set_item (db : DB) (item_id : Nat) :
    Except String (Option ReviewSetItemRow × DB) :=
  if !db.tables_ready then .error notReadyMsg
  else
    match db.review_items.find? (fun i => i.id == item_id) with
    | none => .ok (none, db)
    | some item =>
      .ok (some item,
        { db with review_items := db.review_items.filter (fun i => i.id ≠ item_id) })

/-! ## Reminder-set generator -/

/-- Milliseconds per day. -/
def msPerDay : Int := 86400000

/-- The items of a set list in the generator's order
(`order_by(ReviewSetItem.id.asc())` — item creation order). -/
def itemsOfList (db : DB) (set_list_id : Nat) : List ReviewSetItemRow :=
  sortBy (fun a b => decide (a.id ≤ b.id))
    (db.review_items.filter (fun i => i.set_list_id == set_list_id))

/-- `crud.generate_todos_from_review_set`.  Instants are UTC milliseconds;
`start_date or datetime.now(utc)` then `.replace(hour=0, ...)` floors the
instant to its UTC day boundary.  `now` is the clock reading, passed
explicitly. -/
def generate_todos_from_review_set (db : DB) (set_list_id : Nat)
    (subject : String) (base_title : Option String) (start_date : Option Int)
    (project_id : Option Nat) (now : Int) :
    Except String (List TodoRow × DB) :=
  if pyStrip subject = "" then .error "subject is required"
  else
    match get_review_set_list db set_list_id with
    | .error e => .error e
    | .ok none => .error "set_list not found"
    | .ok (some rs) =>
      let base0 := start_date.getD now
      let base := msPerDay * (Int.fdiv base0 msPerDay)
      let raw := match base_title with
        | some t => if t ≠ "" then t else (if rs.name ≠ "" then rs.name else "復習")
        | none => if rs.name ≠ "" then rs.name else "復習"
      let title_base := if pyStrip raw = "" then "復習" else pyStrip raw
      let items := itemsOfList db rs.id
      if items.isEmpty then .error "set_list has no items"
      else
        let r := items.foldl (fun (acc : DB × List TodoRow) item =>
          let idx := acc.2.length
          let due := base + msPerDay * item.offset_days
          let todo : TodoRow :=
            ⟨acc.1.next_todo_id,
             title_base ++ "_復習" ++ toString (idx + 1) ++ "回目",
             some (pyStrip subject), some due, project_id, false⟩
          ({ acc.1 with
             todos := acc.1.todos ++ [todo],
             next_todo_id := acc.1.next_todo_id + 1 },
           acc.2 ++ [todo])) (db, [])
        .ok (r.2, r.1)

/-! ## Shared sample states for witnesses -/

/-- An empty database with the review-set tables present. -/
def emptyDB : DB :=
  { tables_ready := true, ledger := [], progress := [], todos := [],
    settings := [], review_lists := [], review_items := [],
    next_list_id := 1, next_item_id := 1, next_todo_id := 1 }

/-- An empty database from before the review-set migration. -/
def preMigrationDB : DB := { emptyDB with tables_ready := false }

/-- The state after a first successful `create_review_set_list` on the
empty post-migration database. -/
def createdDB : DB :=
  match create_review_set_list emptyDB ⟨"復習セットA", [⟨1⟩, ⟨7⟩]⟩ with
  | .ok p => p.2
  | .error _ => emptyDB

/-! ## Claim C3: legacy seeding

Spec-side characterization of what one seeding pass produces, written from
the claim: one list per legacy entry that has a non-empty (stripped)
subject name and a non-empty `review_days` array, one item per day-offset
accepted by Python `int(...)`. -/

/-- The stripped subject name a legacy `review_timing` entry contributes,
or `none` when the entry is skipped (not an object, blank subject, or
`review_days` not a non-empty JSON array). -/
def legacyEntrySubject : Json → Option String
  | .obj fs =>
    let subject := pyStrip (match jsonGet fs "subject_name" with
      | some v => if pyTruthy v then pyStr v else ""
      | none => "")
    let okDays : Bool := match jsonGet fs "review_days" with
      | some (.arr ds) => !ds.isEmpty
      | _ => false
    if subject = "" || !okDays then none else some subject
  | _ => none

/-- The `review_days` array of a legacy entry (empty when absent). -/
def legacyEntryDays : Json → List Json
  | .obj fs =>
    match jsonGet fs "review_days" with
    | some (.arr ds) => ds
    | _ => []
  | _ => []

/-- The qualifying legacy entries, in order: stripped subject plus raw
day-offset array. -/
def legacyQualifying (ts : List Json) : List (String × List Json) :=
  ts.filterMap (fun t => (legacyEntrySubject t).map (fun s => (s, legacyEntryDays t)))

/-- The item rows for one seeded list: one per accepted day-offset, with
consecutive ids from `itemId`. -/
def itemRowsFrom (itemId listId : Nat) : List Int → List ReviewSetItemRow
  | [] => []
  | off :: rest => ⟨itemId, listId, off⟩ :: itemRowsFrom (itemId + 1) listId rest

/-- The seeded list rows: one per qualifying entry, named
`"<subject>（旧）"`, with consecutive ids from `listId`. -/
def listRowsFrom (listId : Nat) : List String → List ReviewSetListRow
  | [] => []
  | s :: rest => ⟨listId, s ++ "（旧）"⟩ :: listRowsFrom (listId + 1) rest

/-- All seeded item rows across the qualifying entries. -/
def seedItemsFrom (listId itemId : Nat) : List (String × List Json) → List ReviewSetItemRow
  | [] => []
  | q :: rest =>
    itemRowsFrom itemId listId (q.2.filterMap pyInt) ++
      seedItemsFrom (listId + 1) (itemId + (q.2.filterMap pyInt).length) rest

/-- Total number of seeded items. -/
def seededItemCount (qs : List (String × List Json)) : Nat :=
  (qs.map (fun q => (q.2.filterMap pyInt).length)).sum

/-- The pre-seeding state of §8's seeding scenario:
`review_timing = [{"subject_name":"Tax","review_days":[1,3,7]}]`, tables
present, no lists. -/
def legacySeedDB : DB :=
  { emptyDB with settings :=
      [("review_timing",
        "[\x7b\"subject_name\":\"Tax\",\"review_days\":[1,3,7]\x7d]")] }

/-! ## Claims C8 and C9: generator and item invariants -/

/-- Spec-side description of the generated reminders: one per item in item
order, the N-th (1-based) titled `"<base>_復習N回目"`, due
`base + offset_days` days, ids consecutive from `todoId`.  `n` is the
number of reminders already generated. -/
def generatedTodos (todoId : Nat) (title_base subject : String) (base : Int)
    (project_id : Option Nat) : Nat → List ReviewSetItemRow → List TodoRow
  | _, [] => []
  | n, item :: rest =>
    ⟨todoId, title_base ++ "_復習" ++ toString (n + 1) ++ "回目",
     some subject, some (base + msPerDay * item.offset_days), project_id,
     false⟩
      :: generatedTodos (todoId + 1) title_base subject base project_id
           (n + 1) rest

/-- The code's `title_base` expression:
`(base_title or rs.name or "復習").strip() or "復習"`. -/
def titleBaseOf (base_title : Option String) (listName : String) : String :=
  let raw := match base_title with
    | some t => if t ≠ "" then t else (if listName ≠ "" then listName else "復習")
    | none => if listName ≠ "" then listName else "復習"
  if pyStrip raw = "" then "復習" else pyStrip raw

/-! ### Claim C9 -/

/-- The §3 invariant: every stored review-set item has a non-negative
day-offset. -/
def itemsNonNeg (db : DB) : Prop :=
  ∀ i ∈ db.review_items, 0 ≤ i.offset_days

/-- A legacy state whose `review_timing` holds a negative day-offset. -/
def negSeedDB : DB :=
  { emptyDB with settings :=
      [("review_timing",
        "[\x7b\"subject_name\":\"A\",\"review_days\":[-1,3]\x7d]")] }

/-- A state with one review-set list ("税法セット") holding items with
offsets 0 and 7. -/
def genDB : DB :=
  { emptyDB with
    review_lists := [⟨1, "税法セット"⟩],
    review_items := [⟨1, 1, 0⟩, ⟨2, 1, 7⟩],
    next_list_id := 2, next_item_id := 3 }

/-! ## Proleptic Gregorian calendar on day numbers

`datetime.date` values are modelled by their day number `rd` (days since
0001-01-01, so rd 0 = 0001-01-01, a Monday).  `date.isoformat()` /
`strftime` produce zero-padded `yyyy-MM-dd` keys; `strptime("%Y-%m-%d")`
parses a 4-digit year and 1-2 digit month/day with range checks. -/

def isLeapYear (y : Nat) : Bool :=
  y % 4 = 0 && (y % 100 != 0 || y % 400 = 0)

def daysInMonth (y m : Nat) : Nat :=
  if m = 2 then (if isLeapYear y then 29 else 28)
  else if m = 4 ∨ m = 6 ∨ m = 9 ∨ m = 11 then 30
  else 31

/-- Days of year `y` before month `m` (for `1 ≤ m ≤ 13`). -/
def daysBeforeMonth (y : Nat) : Nat → Nat
  | 0 => 0
  | 1 => 0
  | m + 2 => daysBeforeMonth y (m + 1) + daysInMonth y (m + 1)

/-- Number of leap years among `1 .. y-1`. -/
def leapsBefore (y : Nat) : Nat :=
  (y - 1) / 4 + (y - 1) / 400 - (y - 1) / 100

/-- Day number of Jan 1 of year `y`. -/
def daysBeforeYear (y : Nat) : Nat := 365 * (y - 1) + leapsBefore y

def daysInYear (y : Nat) : Nat := 365 + (if isLeapYear y then 1 else 0)

/-- Day number (days since 0001-01-01) of a civil date. -/
def rdOfCivil (y m d : Nat) : Nat :=
  daysBeforeYear y + daysBeforeMonth y m + (d - 1)

/-- One day past the last representable `datetime.date`. -/
def rdLimit : Nat := daysBeforeYear 10000

/-- Scan forward to the greatest year `y' ≥ y` with
`daysBeforeYear y' ≤ rd` (fuel-bounded). -/
def findYear : Nat → Nat → Nat → Nat
  | 0, y, _ => y
  | fuel + 1, y, rd =>
    if daysBeforeYear (y + 1) ≤ rd then findYear fuel (y + 1) rd else y

/-- The year containing day `rd`: a safe underestimate plus a bounded
forward scan (64 steps cover every `rd < rdLimit`). -/
def yearOfRd (rd : Nat) : Nat := findYear 64 (rd / 366 + 1) rd

/-- Scan for the month: greatest `m' ≥ m` with
`daysBeforeMonth y m' ≤ doy`. -/
def findMonth (y : Nat) : Nat → Nat → Nat → Nat
  | 0, m, _ => m
  | fuel + 1, m, doy =>
    if daysBeforeMonth y (m + 1) ≤ doy then findMonth y fuel (m + 1) doy
    else m

def monthOfDoy (y doy : Nat) : Nat := findMonth y 11 1 doy

/-- Civil date of a day number. -/
def civilOfRd (rd : Nat) : Nat × Nat × Nat :=
  (yearOfRd rd,
   monthOfDoy (yearOfRd rd) (rd - daysBeforeYear (yearOfRd rd)),
   (rd - daysBeforeYear (yearOfRd rd))
     - daysBeforeMonth (yearOfRd rd)
         (monthOfDoy (yearOfRd rd) (rd - daysBeforeYear (yearOfRd rd))) + 1)

/-- Zero-padded decimal digits, most significant first. -/
def padNum : Nat → Nat → List Char
  | 0, _ => []
  | w + 1, n => Nat.digitChar (n / 10 ^ w) :: padNum w (n % 10 ^ w)

/-- `date(y, m, d).isoformat()`. -/
def dateKeyOfCivil (y m d : Nat) : String :=
  ⟨padNum 4 y ++ '-' :: (padNum 2 m ++ '-' :: padNum 2 d)⟩

/-- `isoformat` of a day number (total function; meaningful for
`0 ≤ rd < rdLimit`, the `datetime.date` range). -/
def isoOfRd (rd : Int) : String :=
  dateKeyOfCivil (civilOfRd rd.toNat).1 (civilOfRd rd.toNat).2.1
    (civilOfRd rd.toNat).2.2

def digitsVal? (cs : List Char) : Option Nat :=
  if cs.isEmpty || !(cs.all Char.isDigit) then none
  else some (digitsToNat cs)

/-- `datetime.strptime(s, "%Y-%m-%d").date()`: exactly 4 year digits,
1-2 month/day digits, ranges checked by the regex and the `date`
constructor; anything else raises `ValueError` (`none` here). -/
def parseDateKey (s : String) : Option (Nat × Nat × Nat) :=
  match s.toList.splitOn '-' with
  | [ys, ms, ds] =>
    if ys.length = 4 ∧ (ms.length = 1 ∨ ms.length = 2)
        ∧ (ds.length = 1 ∨ ds.length = 2) then
      match digitsVal? ys, digitsVal? ms, digitsVal? ds with
      | some y, some m, some d =>
        if 1 ≤ y ∧ 1 ≤ m ∧ m ≤ 12 ∧ 1 ≤ d ∧ d ≤ daysInMonth y m then
          some (y, m, d)
        else none
      | _, _, _ => none
    else none
  | _ => none

/-- `date.weekday()`: Monday = 0 (0001-01-01 is a Monday). -/
def weekdayOfRd (rd : Nat) : Nat := rd % 7

/-- Lexicographic (bytewise, as SQL compares VARCHAR) strict comparison of
character lists. -/
def strLtB : List Char → List Char → Bool
  | [], [] => false
  | [], _ :: _ => true
  | _ :: _, [] => false
  | x :: xs, y :: ys =>
    if x < y then true else if y < x then false else strLtB xs ys

/-- SQL `<` on string columns. -/
def strLt (s t : String) : Bool := strLtB s.data t.data

/-- SQL `<=` / `>=` on string columns. -/
def strLe (s t : String) : Bool := !(strLt t s)

/-! ## Aggregation engine -/

/-- Sum of `last_total_ms` over the rows accepted by a filter
(`func.sum(...)`, with SQL NULL-to-0 via `int(... or 0)`). -/
def sumLedgerMs (db : DB) (p : LedgerEntry → Bool) : Int :=
  ((db.ledger.filter p).map (fun e => e.last_total_ms)).sum

/-- `crud.get_study_time_summary_ms(db, user_id, date_key)`: today's exact
date-key sum and the Monday-to-Monday half-open string-range sum;
`none` when `strptime` raises on the date key. -/
def get_study_time_summary_ms (db : DB) (user_id date_key : String) :
    Option (Int × Int) :=
  match parseDateKey date_key with
  | none => none
  | some (y, m, d) =>
    let today := sumLedgerMs db
      (fun e => e.key.user_id == user_id && e.key.date_key == date_key)
    let rd := rdOfCivil y m d
    let weekStart : Int := (rd : Int) - (weekdayOfRd rd : Int)
    let wsk := isoOfRd weekStart
    let wek := isoOfRd (weekStart + 7)
    let week := sumLedgerMs db
      (fun e => e.key.user_id == user_id && strLe wsk e.key.date_key
        && strLt e.key.date_key wek)
    some (today, week)

/-! ### Calendar validity predicate -/

/-- Validity of a civil date (what `datetime.date` accepts, year cap
aside). -/
def ValidCivil (y m d : Nat) : Prop :=
  1 ≤ y ∧ 1 ≤ m ∧ m ≤ 12 ∧ 1 ≤ d ∧ d ≤ daysInMonth y m

/-! ## Dashboard summary: streaks and the per-subject weekly grid -/

/-- `float(ms) / 3_600_000.0`, exact. -/
def hoursOfMs (ms : Int) : ℚ := (ms : ℚ) / 3600000

/-- `streak_hours_by_date.get(dk, 0.0)`: summed hours of `dk` among the
rows of the streak-window query (user filter plus half-open string range,
grouped by date key; a missing group reads 0). -/
def streakHours (db : DB) (u skey ekey dk : String) : ℚ :=
  hoursOfMs (sumLedgerMs db (fun e => e.key.user_id == u
    && strLe skey e.key.date_key && strLt e.key.date_key ekey
    && e.key.date_key == dk))

/-- `streak_hours_by_date.get(k, 0.0) > 0.0` at the ISO key of day `d`. -/
def streakActive (db : DB) (u skey ekey : String) (d : Int) : Bool :=
  decide (0 < streakHours db u skey ekey (isoOfRd d))

/-- The `while cur >= streak_start` walk of `get_dashboard_summary`:
counts consecutive active days from `d` downward, at most `n` (the window
size). -/
def currentStreak (active : Int → Bool) : Int → Nat → Nat
  | _, 0 => 0
  | d, n + 1 => if active d then currentStreak active (d - 1) n + 1 else 0

/-- The forward scan for the longest run: `run` resets on an inactive day,
`best` tracks the running maximum. -/
def longestStreakAux (active : Int → Bool) : Int → Nat → Nat → Nat → Nat
  | _, 0, _, best => best
  | d, n + 1, run, best =>
    if active d then
      longestStreakAux active (d + 1) n (run + 1) (max best (run + 1))
    else longestStreakAux active (d + 1) n 0 best

/-- `if streak_days < 1: streak_days = 1` — the window length. -/
def streakLenOf (streak_days : Int) : Nat :=
  (if streak_days < 1 then 1 else streak_days).toNat

/-- The streak block of `crud.get_dashboard_summary`:
`(current, longest)` over the trailing window of `streak_days` days ending
at day `base`. -/
def dashboardStreak (db : DB) (u : String) (base : Int) (streak_days : Int) :
    Nat × Nat :=
  let n := streakLenOf streak_days
  let start := base - ((n : Int) - 1)
  let skey := isoOfRd start
  let ekey := isoOfRd (base + 1)
  (currentStreak (streakActive db u skey ekey) base n,
   longestStreakAux (streakActive db u skey ekey) start n 0 0)

/-- The per-entry decision of
`crud._get_visible_subject_names_from_settings`: skip non-objects and
entries without a string `name`; `visible` defaults to `True` and only the
boolean `False` (checked with `is False`) hides an entry. -/
def pickVisibleName : Json → Option String
  | .obj fs =>
    match jsonGet fs "name" with
    | some (.str name) =>
      match jsonGet fs "visible" with
      | some (.bool false) => none
      | _ => some name
    | _ => none
  | _ => none

/-- `crud._get_visible_subject_names_from_settings`: `none` = no filtering
(setting absent, blank, malformed JSON or not an array); otherwise the
listed visible names, in order. -/
def _get_visible_subject_names_from_settings (db : DB) : Option (List String) :=
  match get_setting db.settings "subjects" with
  | none => none
  | some v =>
    if pyStrip v = "" then none
    else
      match json_loads v with
      | some (.arr items) => some (items.filterMap pickVisibleName)
      | _ => none

/-- One cell of the stacked-bar grid: summed hours for (day, subject)
among the week query's rows. -/
def weekCellMs (db : DB) (u wsk wek dk sbj : String) : Int :=
  sumLedgerMs db (fun e => e.key.user_id == u
    && strLe wsk e.key.date_key && strLt e.key.date_key wek
    && e.key.date_key == dk && e.key.subject == sbj)

/-- `subjects_in_week`: subjects of the week's rows that survive the
visibility filter (insertion order, first occurrence). -/
def subjectsInWeek (db : DB) (u wsk wek : String)
    (visible : Option (List String)) : List String :=
  ((db.ledger.filter (fun e => e.key.user_id == u
      && strLe wsk e.key.date_key && strLt e.key.date_key wek
      && (match visible with
          | none => true
          | some vs => vs.contains e.key.subject))).map
    (fun e => e.key.subject)).dedup

/-- `subject_order`: the settings order when present, else the observed
subjects sorted lexicographically (`sorted(set)`). -/
def subjectOrder (visible : Option (List String)) (inWeek : List String) :
    List String :=
  match visible with
  | none => sortBy strLe inWeek
  | some vs => vs

/-- `week_daily_by_subject`: the 7-day grid, each day mapping the ordered
subject universe to hours (0 for subjects without rows that day). -/
def weekDailyBySubject (db : DB) (u : String) (weekStart : Int) :
    List (String × List (String × ℚ)) :=
  let wsk := isoOfRd weekStart
  let wek := isoOfRd (weekStart + 7)
  let visible := _get_visible_subject_names_from_settings db
  let order := subjectOrder visible (subjectsInWeek db u wsk wek visible)
  (List.range 7).map (fun i =>
    let dk := isoOfRd (weekStart + (i : Int))
    (dk, order.map (fun name => (name, hoursOfMs (weekCellMs db u wsk wek dk name)))))

/-- The parts of the `/api/summary` response the dashboard claims are
about (the remaining fields — `week_daily`, `today_hours`, `week_hours`,
`subjects` — are separate read-only aggregates of the same tables). -/
structure DashboardSummary where
  date_key : String
  week_daily_by_subject : List (String × List (String × ℚ))
  streak_current : Nat
  streak_longest : Nat
deriving Repr

/-- `crud.get_dashboard_summary` (modelled parts).  The date key is
required here; the JST "today" fallback used when the caller omits it
needs a wall clock and is outside these claims. -/
def get_dashboard_summary (db : DB) (u : String) (date_key : String)
    (streak_days : Int) : Option DashboardSummary :=
  match parseDateKey date_key with
  | none => none
  | some (y, m, d) =>
    let base : Int := (rdOfCivil y m d : Int)
    let weekStart := base - (weekdayOfRd (rdOfCivil y m d) : Int)
    let s := dashboardStreak db u base streak_days
    some { date_key := date_key,
           week_daily_by_subject := weekDailyBySubject db u weekStart,
           streak_current := s.1, streak_longest := s.2 }

/-! ### Streak scan verification

`currentStreak` computes the greatest all-active prefix walking backward;
`longestStreakAux` computes the greatest active run anywhere in the
window.  Both are characterized through `Nat.findGreatest`. -/

/-- Length of the maximal active suffix of the first `c` processed days
(`start .. start+c-1`). -/
def suffLen (active : Int → Bool) (start : Int) (c : Nat) : Nat :=
  Nat.findGreatest
    (fun r => ∀ i < r, active (start + (c : Int) - 1 - i) = true) c

/-- Length of the longest active run within the first `c` processed
days. -/
def bestLen (active : Int → Bool) (start : Int) (c : Nat) : Nat :=
  Nat.findGreatest
    (fun L => ∃ s < c + 1, s + L ≤ c ∧ ∀ i < L, active (start + s + i) = true) c

/-! ## Claims C5 and C10 -/

/-- Claim-side day hours: the summed hours of a user's rows whose date key
is the ISO key of day `d`, with no window-range filter. -/
def specDayHours (db : DB) (u : String) (d : Int) : ℚ :=
  hoursOfMs (sumLedgerMs db
    (fun e => e.key.user_id == u && e.key.date_key == isoOfRd d))

/-- Claim-side activity: "a day is active iff its summed hours exceed
0". -/
def specDayActive (db : DB) (u : String) (d : Int) : Bool :=
  decide (0 < specDayHours db u d)

/-- The claim's concrete scenario: hours 1, 0, 1, 1 on the four
consecutive days 2026-01-05 .. 2026-01-08. -/
def streakDB : DB :=
  { emptyDB with
    ledger := [⟨⟨"u", "2026-01-05", "Tax", "s1"⟩, 3600000⟩,
               ⟨⟨"u", "2026-01-07", "Tax", "s1"⟩, 3600000⟩,
               ⟨⟨"u", "2026-01-08", "Tax", "s1"⟩, 3600000⟩] }

/-- Settings state for the C10 scenario: `subjects` present and equal to
the valid empty JSON array. -/
def db10 : DB := { emptyDB with settings := [("subjects", "[]")] }

/-! ### Basic ledger lemmas -/

theorem lookupEntry_nil (k : LedgerKey) : lookupEntry [] k = none := rfl

theorem lookupEntry_append_of_none {l : Ledger} {k : LedgerKey}
    (h : lookupEntry l k = none) (e : LedgerEntry) :
    lookupEntry (l ++ [e]) k =
      (if e.key = k then some e.last_total_ms else none) := by
  induction l with
  | nil => simp [lookupEntry]
  | cons a as ih =>
    by_cases hk : a.key = k
    · simp [lookupEntry, hk] at h
    · simp only [lookupEntry, if_neg hk] at h
      simpa [lookupEntry, hk] using ih h

theorem lookupEntry_append_ne {l : Ledger} {k' : LedgerKey}
    (e : LedgerEntry) (hk : e.key ≠ k') :
    lookupEntry (l ++ [e]) k' = lookupEntry l k' := by
  induction l with
  | nil => simp [lookupEntry, hk]
  | cons a as ih =>
    by_cases ha : a.key = k'
    · simp [lookupEntry, ha]
    · simpa [lookupEntry, ha] using ih

theorem lookupEntry_setEntry_self {l : Ledger} {k : LedgerKey}
    (h : (lookupEntry l k).isSome) (v : Int) :
    lookupEntry (setEntry l k v) k = some v := by
  induction l with
  | nil => simp [lookupEntry] at h
  | cons a as ih =>
    by_cases ha : a.key = k
    · simp [lookupEntry, setEntry, ha]
    · simp only [lookupEntry, if_neg ha] at h
      simpa [setEntry, lookupEntry, ha] using ih h

theorem lookupEntry_setEntry_ne {l : Ledger} {k k' : LedgerKey}
    (hk : k ≠ k') (v : Int) :
    lookupEntry (setEntry l k v) k' = lookupEntry l k' := by
  induction l with
  | nil => simp [setEntry]
  | cons a as ih =>
    by_cases ha : a.key = k
    · have hne : a.key ≠ k' := ha ▸ hk
      simp [lookupEntry, setEntry, ha, hne, hk]
    · by_cases ha' : a.key = k'
      · have hke : k' ≠ k := fun he => ha (ha'.trans he)
        simp [lookupEntry, setEntry, ha, ha', hke]
      · simpa [lookupEntry, setEntry, ha, ha'] using ih

/-- The delta returned by one ledger application. -/
theorem applyLedger_fst (l : Ledger) (k : LedgerKey) (t : Int) :
    (applyLedgerTotalMs l k t).1 = max (t - storedMs l k) 0 := by
  unfold applyLedgerTotalMs storedMs
  cases h : lookupEntry l k <;> simp [h]

/-- After one application the stored value reads `max (stored, total)`. -/
theorem storedMs_applyLedger (l : Ledger) (k : LedgerKey) (t : Int) :
    storedMs (applyLedgerTotalMs l k t).2 k = max (storedMs l k) t := by
  cases h : lookupEntry l k with
  | none =>
    have happ := lookupEntry_append_of_none h (⟨k, 0⟩ : LedgerEntry)
    simp at happ
    by_cases hlt : (0 : Int) < t
    · have hsome : (lookupEntry (l ++ [(⟨k, 0⟩ : LedgerEntry)]) k).isSome := by
        rw [happ]; rfl
      unfold applyLedgerTotalMs
      rw [h]
      simp only [storedMs, if_pos hlt]
      rw [lookupEntry_setEntry_self hsome t]
      simp only [storedMs, h, Option.getD_none, Option.getD_some]
      omega
    · unfold applyLedgerTotalMs
      rw [h]
      simp only [storedMs, if_neg hlt]
      rw [happ]
      simp only [h, Option.getD_none, Option.getD_some]
      omega
  | some v =>
    by_cases hlt : v < t
    · have hsome : (lookupEntry l k).isSome := by rw [h]; rfl
      unfold applyLedgerTotalMs
      rw [h]
      simp only [storedMs, if_pos hlt]
      rw [lookupEntry_setEntry_self hsome t]
      simp only [h, Option.getD_some]
      omega
    · unfold applyLedgerTotalMs
      rw [h]
      simp only [storedMs, if_neg hlt, h, Option.getD_some]
      omega

/-- Other identities are untouched by one ledger application. -/
theorem storedMs_applyLedger_ne (l : Ledger) (k k' : LedgerKey) (t : Int)
    (hk : k ≠ k') :
    lookupEntry (applyLedgerTotalMs l k t).2 k' = lookupEntry l k' := by
  cases h : lookupEntry l k with
  | none =>
    have happ :=
      @lookupEntry_append_ne l k' (⟨k, 0⟩ : LedgerEntry) hk
    unfold applyLedgerTotalMs
    rw [h]
    by_cases hlt : (0 : Int) < t
    · simp only [if_pos hlt]
      rw [lookupEntry_setEntry_ne hk t, happ]
    · simp only [if_neg hlt]
      exact happ
  | some v =>
    unfold applyLedgerTotalMs
    rw [h]
    by_cases hlt : v < t
    · simp only [if_pos hlt]
      rw [lookupEntry_setEntry_ne hk t]
    · simp only [if_neg hlt]

/-- Telescoping: over a non-decreasing run of totals starting at or above the
stored value, the returned deltas sum to `last total - initial stored value`,
and the final stored value is the last total. -/
theorem applySeqLedger_sum (k : LedgerKey) :
    ∀ (ts : List Int) (l : Ledger) (t0 : Int),
      storedMs l k ≤ t0 → List.Chain' (· ≤ ·) (t0 :: ts) →
      (applySeqLedger l k (t0 :: ts)).1.sum
          = (t0 :: ts).getLast (List.cons_ne_nil _ _) - storedMs l k ∧
        storedMs (applySeqLedger l k (t0 :: ts)).2 k
          = (t0 :: ts).getLast (List.cons_ne_nil _ _) := by
  intro ts
  induction ts with
  | nil =>
    intro l t0 hle _
    have h1 := applyLedger_fst l k t0
    have h2 := storedMs_applyLedger l k t0
    unfold applySeqLedger
    simp only [applySeqLedger, List.sum_cons, List.sum_nil, List.getLast_singleton]
    rw [h1, h2]
    omega
  | cons t1 ts ih =>
    intro l t0 hle hchain
    have h01 : t0 ≤ t1 := (List.chain'_cons.mp hchain).1
    have hch : List.Chain' (· ≤ ·) (t1 :: ts) := (List.chain'_cons.mp hchain).2
    have hs' : storedMs (applyLedgerTotalMs l k t0).2 k = t0 := by
      rw [storedMs_applyLedger]; omega
    obtain ⟨ihsum, ihlast⟩ :=
      ih (applyLedgerTotalMs l k t0).2 t1 (by rw [hs']; exact h01) hch
    have hlast : (t0 :: t1 :: ts).getLast (List.cons_ne_nil _ _)
        = (t1 :: ts).getLast (List.cons_ne_nil _ _) := by
      rw [List.getLast_cons]
    constructor
    · show ((applyLedgerTotalMs l k t0).1
          :: (applySeqLedger (applyLedgerTotalMs l k t0).2 k (t1 :: ts)).1).sum = _
      rw [List.sum_cons, applyLedger_fst, ihsum, hs', hlast]
      omega
    · show storedMs (applySeqLedger (applyLedgerTotalMs l k t0).2 k (t1 :: ts)).2 k = _
      rw [ihlast, hlast]

theorem get_setting_setSetting_self (s : List (String × String))
    (key value : String) :
    get_setting (setSetting s key value) key = some value := by
  induction s with
  | nil => simp [setSetting, get_setting]
  | cons p rest ih =>
    by_cases hp : p.1 = key
    · simp [setSetting, get_setting, hp]
    · simpa [setSetting, get_setting, hp] using ih

theorem get_setting_setSetting_ne (s : List (String × String))
    {key key' : String} (h : key ≠ key') (value : String) :
    get_setting (setSetting s key value) key' = get_setting s key' := by
  induction s with
  | nil => simp [setSetting, get_setting, h]
  | cons p rest ih =>
    by_cases hp : p.1 = key
    · have : p.1 ≠ key' := hp ▸ h
      simp [setSetting, get_setting, hp, h, this]
    · by_cases hp' : p.1 = key'
      · simp [setSetting, get_setting, hp, hp', Ne.symm h]
      · simpa [setSetting, get_setting, hp, hp'] using ih

/-! ## Claim C1 -/

/-- **C1.** For every identity starting from any state (an absent row reads
as stored 0) and a non-negative reported total: the call returns
`max(total_ms - stored, 0)`; afterwards the stored value reads
`max(stored, total_ms)`, hence never decreases; a total at or below the
stored value returns delta 0 and leaves the stored value unchanged; and
over any non-decreasing sequence of non-negative totals applied to an
identity that starts absent, the returned deltas sum to the last total. -/
theorem C1_apply_delta_idempotent (db : DB) (k : LedgerKey) (t : Int)
    (ht : 0 ≤ t) :
    (apply_study_time_total_ms db k t).1 = max (t - storedMs db.ledger k) 0 ∧
    storedMs (apply_study_time_total_ms db k t).2.ledger k
        = max (storedMs db.ledger k) t ∧
    storedMs db.ledger k
        ≤ storedMs (apply_study_time_total_ms db k t).2.ledger k ∧
    (t ≤ storedMs db.ledger k →
      (apply_study_time_total_ms db k t).1 = 0 ∧
      storedMs (apply_study_time_total_ms db k t).2.ledger k
          = storedMs db.ledger k) ∧
    (∀ ts : List Int, lookupEntry db.ledger k = none →
      List.Chain' (· ≤ ·) (t :: ts) →
      (applySeq db k (t :: ts)).1.sum
          = (t :: ts).getLast (List.cons_ne_nil _ _)) := by
  refine ⟨?_, ?_, ?_, ?_, ?_⟩
  · exact applyLedger_fst db.ledger k t
  · exact storedMs_applyLedger db.ledger k t
  · rw [show (apply_study_time_total_ms db k t).2.ledger
          = (applyLedgerTotalMs db.ledger k t).2 from rfl,
        storedMs_applyLedger]
    omega
  · intro hle
    have h1 := applyLedger_fst db.ledger k t
    have h2 := storedMs_applyLedger db.ledger k t
    refine ⟨?_, ?_⟩
    · rw [show (apply_study_time_total_ms db k t).1
            = (applyLedgerTotalMs db.ledger k t).1 from rfl, h1]
      omega
    · rw [show (apply_study_time_total_ms db k t).2.ledger
            = (applyLedgerTotalMs db.ledger k t).2 from rfl, h2]
      omega
  · intro ts habsent hchain
    have hstored : storedMs db.ledger k = 0 := by
      rw [storedMs, habsent]; rfl
    have := (applySeqLedger_sum k ts db.ledger t (by omega) hchain).1
    rw [show (applySeq db k (t :: ts)).1
          = (applySeqLedger db.ledger k (t :: ts)).1 from rfl, this, hstored]
    omega

/-- Closed witness for C1 at a concrete identity and state. -/
theorem C1_apply_delta_idempotent_witness :
    (0 : Int) ≤ 600000 ∧
    (apply_study_time_total_ms
        { tables_ready := true, ledger := [], progress := [], todos := [],
          settings := [], review_lists := [], review_items := [],
          next_list_id := 1, next_item_id := 1, next_todo_id := 1 }
        ⟨"u", "2026-01-05", "Tax", "s1"⟩ 600000).1 =
      max (600000 - storedMs [] ⟨"u", "2026-01-05", "Tax", "s1"⟩) 0 := by
  have h := C1_apply_delta_idempotent
    { tables_ready := true, ledger := [], progress := [], todos := [],
      settings := [], review_lists := [], review_items := [],
      next_list_id := 1, next_item_id := 1, next_todo_id := 1 }
    ⟨"u", "2026-01-05", "Tax", "s1"⟩ 600000 (by norm_num)
  exact ⟨by norm_num, h.1⟩

/-! ## Helper lemmas about the resolver -/

/-- Reading a setting stored as the string `"false"` through
`_get_bool_setting` yields `false` (the JSON-boolean branch). -/
theorem get_bool_setting_of_false {db : DB} {key : String}
    (h : get_setting db.settings key = some "false") (dflt : Bool) :
    _get_bool_setting db key dflt = false := by
  unfold _get_bool_setting
  rw [h]
  rfl

/-! ## Claim C2 -/

/-- **C2.** (a) When `create_review_set_list` succeeds, the resulting state
stores `use_legacy_review_sets = "false"` and the flag reads back false.
(b) When `delete_review_set_list` deletes a list and the live count reaches
zero, the same holds.  (c) In every state where the flag reads false, the
list-read path changes nothing — in particular it creates no
legacy-seeded lists, even with a zero list count and `review_timing`
present — so legacy lists cannot reappear after either transition. -/
theorem C2_cutover_persistence (db : DB) :
    (∀ (payload : ReviewSetListCreate) (r : ReviewSetListRow) (db' : DB),
      create_review_set_list db payload = .ok (r, db') →
      get_setting db'.settings "use_legacy_review_sets" = some "false" ∧
      _get_bool_setting db' "use_legacy_review_sets" true = false) ∧
    (∀ (i : Nat) (rs : ReviewSetListRow) (db' : DB),
      delete_review_set_list db i = .ok (some rs, db') →
      db'.review_lists.length = 0 →
      get_setting db'.settings "use_legacy_review_sets" = some "false" ∧
      _get_bool_setting db' "use_legacy_review_sets" true = false) ∧
    (∀ (skip limit : Nat) (res : List ReviewSetListRow) (db' : DB),
      _get_bool_setting db "use_legacy_review_sets" true = false →
      get_all_review_set_lists db skip limit = .ok (res, db') →
      db' = db) := by
  refine ⟨?_, ?_, ?_⟩
  · intro payload r db' heq
    by_cases hr : db.tables_ready = true
    · simp only [create_review_set_list, hr, Bool.not_true, Bool.false_eq_true,
        if_false, Except.ok.injEq, Prod.mk.injEq] at heq
      obtain ⟨-, h2⟩ := heq
      subst h2
      exact ⟨get_setting_setSetting_self _ _ _,
        get_bool_setting_of_false (get_setting_setSetting_self _ _ _) true⟩
    · rw [Bool.not_eq_true] at hr
      simp [create_review_set_list, hr] at heq
  · intro i rs db' heq hlen
    cases hg : get_review_set_list db i with
    | error e =>
      rw [delete_review_set_list, hg] at heq
      exact absurd heq (by simp)
    | ok o =>
      rw [delete_review_set_list, hg] at heq
      cases o with
      | none => simp at heq
      | some rs0 =>
        simp only [Except.ok.injEq, Prod.mk.injEq] at heq
        obtain ⟨-, h2⟩ := heq
        by_cases hz : (({ db with
            review_lists := db.review_lists.filter (fun r => r.id ≠ rs0.id),
            review_items := db.review_items.filter
              (fun i => i.set_list_id ≠ rs0.id) } : DB)).review_lists.length = 0
        · rw [if_pos hz] at h2
          subst h2
          exact ⟨get_setting_setSetting_self _ _ _,
            get_bool_setting_of_false (get_setting_setSetting_self _ _ _) true⟩
        · rw [if_neg hz] at h2
          subst h2
          exact absurd hlen hz
  · intro skip limit res db' hflag heq
    by_cases hr : db.tables_ready = true
    · by_cases hz : db.review_lists.length = 0
      · simp only [get_all_review_set_lists, hr, Bool.not_true,
          Bool.false_eq_true, if_false, hz, if_pos, hflag,
          Except.ok.injEq, Prod.mk.injEq] at heq
        exact heq.2.symm
      · simp only [get_all_review_set_lists, hr, Bool.not_true,
          Bool.false_eq_true, if_false, hz, if_neg,
          Except.ok.injEq, Prod.mk.injEq] at heq
        exact heq.2.symm
    · rw [Bool.not_eq_true] at hr
      simp [get_all_review_set_lists, hr] at heq

/-- Closed witness for C2: a concrete successful create persists the flag
as `"false"` and it reads back false. -/
theorem C2_cutover_persistence_witness :
    create_review_set_list emptyDB ⟨"復習セットA", [⟨1⟩, ⟨7⟩]⟩
        = .ok (⟨1, "復習セットA"⟩, createdDB) ∧
    get_setting createdDB.settings "use_legacy_review_sets" = some "false" ∧
    _get_bool_setting createdDB "use_legacy_review_sets" true = false := by
  have h : create_review_set_list emptyDB ⟨"復習セットA", [⟨1⟩, ⟨7⟩]⟩
      = .ok (⟨1, "復習セットA"⟩, createdDB) := rfl
  have h2 := (C2_cutover_persistence emptyDB).1 ⟨"復習セットA", [⟨1⟩, ⟨7⟩]⟩
    ⟨1, "復習セットA"⟩ createdDB h
  exact ⟨h, h2.1, h2.2⟩

/-! ## Claim C7 -/

/-- **C7.** With the review-set tables absent every reminder-set operation
fails with the "not ready" error; the error is raised before any write, so
the failing call leaves the state unmodified (an `Except.error` result
carries no successor state: the caller's session keeps the entry state). -/
theorem C7_not_ready_errors (db : DB) (h : db.tables_ready = false)
    (skip limit set_list_id item_id : Nat) (payload : ReviewSetListCreate)
    (itemPayload : ReviewSetItemCreate) (name? : Option String)
    (offset_days : Int) :
    get_all_review_set_lists db skip limit = .error notReadyMsg ∧
    get_review_set_list db set_list_id = .error notReadyMsg ∧
    create_review_set_list db payload = .error notReadyMsg ∧
    update_review_set_list db set_list_id name? = .error notReadyMsg ∧
    delete_review_set_list db set_list_id = .error notReadyMsg ∧
    create_review_set_item db set_list_id itemPayload = .error notReadyMsg ∧
    update_review_set_item db item_id offset_days = .error notReadyMsg ∧
    delete_review_set_item db item_id = .error notReadyMsg := by
  have hg : get_review_set_list db set_list_id = .error notReadyMsg := by
    simp [get_review_set_list, h]
  refine ⟨?_, hg, ?_, ?_, ?_, ?_, ?_, ?_⟩
  · simp [get_all_review_set_lists, h]
  · simp [create_review_set_list, h]
  · simp [update_review_set_list, hg]
  · simp [delete_review_set_list, hg]
  · simp [create_review_set_item, hg]
  · simp [update_review_set_item, h]
  · simp [delete_review_set_item, h]

/-- Closed witness for C7 at the pre-migration empty state. -/
theorem C7_not_ready_errors_witness :
    preMigrationDB.tables_ready = false ∧
    get_all_review_set_lists preMigrationDB 0 100 = .error notReadyMsg := by
  refine ⟨rfl, ?_⟩
  exact (C7_not_ready_errors preMigrationDB rfl 0 100 1 1 ⟨"A", []⟩ ⟨3⟩ none 3).1

/-! ### Claim C3: the seeding pass, characterized -/

/-- A skipped legacy entry leaves the state untouched. -/
theorem seedEntry_of_skip {t : Json} (h : legacyEntrySubject t = none)
    (db : DB) : seedEntry db t = (db, false) := by
  cases t with
  | obj fs =>
    simp only [legacyEntrySubject] at h
    simp only [seedEntry]
    by_cases hs : pyStrip (match jsonGet fs "subject_name" with
      | some v => if pyTruthy v then pyStr v else ""
      | none => "") = ""
    · simp [hs]
    · rw [if_neg hs]
      simp only [hs, Bool.false_or] at h
      cases hd : jsonGet fs "review_days" with
      | none => simp [hd]
      | some v =>
        cases v with
        | arr ds =>
          rw [hd] at h
          simp only at h
          cases ds with
          | nil => simp [hd]
          | cons d ds' => simp at h
        | null => simp [hd]
        | bool b => simp [hd]
        | int n => simp [hd]
        | float q => simp [hd]
        | str s => simp [hd]
        | obj fs2 => simp [hd]
  | null => rfl
  | bool b => rfl
  | int n => rfl
  | float q => rfl
  | str s => rfl
  | arr xs => rfl

/-- The item loop of one seeded entry: appends one row per accepted
offset, bumping the item-id counter. -/
theorem seed_item_fold (lid : Nat) :
    ∀ (ds : List Json) (db : DB),
    ds.foldl (fun acc day =>
      match pyInt day with
      | none => acc
      | some off => { acc with
          review_items := acc.review_items ++ [⟨acc.next_item_id, lid, off⟩],
          next_item_id := acc.next_item_id + 1 }) db
    = { db with
        review_items := db.review_items
          ++ itemRowsFrom db.next_item_id lid (ds.filterMap pyInt),
        next_item_id := db.next_item_id + (ds.filterMap pyInt).length } := by
  intro ds
  induction ds with
  | nil => intro db; simp [itemRowsFrom]
  | cons d rest ih =>
    intro db
    cases hp : pyInt d with
    | none => simp only [List.foldl_cons, hp, ih, List.filterMap_cons, hp]
    | some off =>
      simp only [List.foldl_cons, hp, ih, List.filterMap_cons]
      simp [itemRowsFrom, List.append_assoc]
      omega

/-- A qualifying legacy entry appends one named list and its item rows. -/
theorem seedEntry_of_qualifying {t : Json} {s : String}
    (h : legacyEntrySubject t = some s) (db : DB) :
    seedEntry db t =
      ({ db with
         review_lists := db.review_lists ++ [⟨db.next_list_id, s ++ "（旧）"⟩],
         review_items := db.review_items
           ++ itemRowsFrom db.next_item_id db.next_list_id
                ((legacyEntryDays t).filterMap pyInt),
         next_list_id := db.next_list_id + 1,
         next_item_id := db.next_item_id
           + ((legacyEntryDays t).filterMap pyInt).length }, true) := by
  cases t with
  | obj fs =>
    simp only [legacyEntrySubject] at h
    by_cases hs : pyStrip (match jsonGet fs "subject_name" with
      | some v => if pyTruthy v then pyStr v else ""
      | none => "") = ""
    · simp [hs] at h
    · cases hd : jsonGet fs "review_days" with
      | none => rw [hd] at h; simp [hs] at h
      | some v =>
        rw [hd] at h
        cases v with
        | arr ds =>
          cases ds with
          | nil => simp [hs] at h
          | cons d ds' =>
            simp only [hs, decide_eq_true_eq, List.isEmpty_cons,
              Bool.not_false, Bool.or_false, if_neg, Option.some.injEq,
              decide_eq_false, Bool.false_or, Bool.not_true,
              Bool.false_eq_true, if_false] at h
            subst h
            simp only [seedEntry, hd, List.isEmpty_cons, if_neg hs,
              Bool.false_eq_true, if_false]
            rw [seed_item_fold]
            simp [legacyEntryDays, hd]
        | null => simp [hs, hd] at h
        | bool b => simp [hs, hd] at h
        | int n => simp [hs, hd] at h
        | float q => simp [hs, hd] at h
        | str s2 => simp [hs, hd] at h
        | obj fs2 => simp [hs, hd] at h
  | null => simp [legacyEntrySubject] at h
  | bool b => simp [legacyEntrySubject] at h
  | int n => simp [legacyEntrySubject] at h
  | float q => simp [legacyEntrySubject] at h
  | str s2 => simp [legacyEntrySubject] at h
  | arr xs => simp [legacyEntrySubject] at h

/-- The whole seeding fold, characterized by the qualifying entries. -/
theorem seed_fold_spec :
    ∀ (ts : List Json) (db : DB) (c : Nat),
    ts.foldl (fun (acc : Nat × DB) t =>
        let s := seedEntry acc.2 t
        (acc.1 + (if s.2 then 1 else 0), s.1)) (c, db)
    = (c + (legacyQualifying ts).length,
       { db with
         review_lists := db.review_lists
           ++ listRowsFrom db.next_list_id ((legacyQualifying ts).map Prod.fst),
         review_items := db.review_items
           ++ seedItemsFrom db.next_list_id db.next_item_id (legacyQualifying ts),
         next_list_id := db.next_list_id + (legacyQualifying ts).length,
         next_item_id := db.next_item_id
           + seededItemCount (legacyQualifying ts) }) := by
  intro ts
  induction ts with
  | nil =>
    intro db c
    simp [legacyQualifying, listRowsFrom, seedItemsFrom, seededItemCount]
  | cons t rest ih =>
    intro db c
    cases hq : legacyEntrySubject t with
    | none =>
      rw [List.foldl_cons]
      simp only [seedEntry_of_skip hq db]
      rw [ih]
      simp [legacyQualifying, hq]
    | some s =>
      rw [List.foldl_cons]
      simp only [seedEntry_of_qualifying hq db, if_pos]
      rw [ih]
      have hql : legacyQualifying (t :: rest)
          = (s, legacyEntryDays t) :: legacyQualifying rest := by
        simp [legacyQualifying, hq]
      rw [hql]
      simp only [List.length_cons, List.map_cons, listRowsFrom, seedItemsFrom,
        seededItemCount, List.sum_cons, Prod.mk.injEq, DB.mk.injEq]
      and_intros <;> first
        | trivial
        | omega
        | simp [List.append_assoc]

/-- **C3 (amended).** Seeding runs only when the tables exist, the live
list count is exactly 0 and `use_legacy_review_sets` reads true (default
true): with the tables absent or the count positive the seeder is a no-op,
and a read-path call with count > 0 or with the flag reading false leaves
the state unchanged (one-shot).  When seeding runs on a state whose
`review_timing` parses as a JSON array, it creates exactly one list named
`"<subject>（旧）"` per entry with a non-empty subject name and non-empty
`review_days` array, with one item per day-offset accepted by `int(...)`
(offsets it rejects are skipped without failing). -/
theorem C3_legacy_seeding (db : DB) :
    ((db.tables_ready = false ∨ db.review_lists ≠ []) →
      _seed_review_set_lists_from_legacy_settings db = (0, db)) ∧
    (∀ (skip limit : Nat) (res : List ReviewSetListRow) (db' : DB),
      db.review_lists ≠ [] →
      get_all_review_set_lists db skip limit = .ok (res, db') → db' = db) ∧
    (∀ (skip limit : Nat) (res : List ReviewSetListRow) (db' : DB),
      _get_bool_setting db "use_legacy_review_sets" true = false →
      get_all_review_set_lists db skip limit = .ok (res, db') → db' = db) ∧
    (∀ (ts : List Json) (v : String), db.tables_ready = true →
      db.review_lists = [] →
      get_setting db.settings "review_timing" = some v →
      json_loads v = some (.arr ts) →
      _seed_review_set_lists_from_legacy_settings db
        = ((legacyQualifying ts).length,
           { db with
             review_lists :=
               listRowsFrom db.next_list_id ((legacyQualifying ts).map Prod.fst),
             review_items := db.review_items
               ++ seedItemsFrom db.next_list_id db.next_item_id
                    (legacyQualifying ts),
             next_list_id := db.next_list_id + (legacyQualifying ts).length,
             next_item_id := db.next_item_id
               + seededItemCount (legacyQualifying ts) })) := by
  refine ⟨?_, ?_, ?_, ?_⟩
  · rintro (h | h)
    · simp [_seed_review_set_lists_from_legacy_settings, h]
    · have hlen : 0 < db.review_lists.length := List.length_pos.mpr h
      by_cases hr : db.tables_ready = true
      · simp [_seed_review_set_lists_from_legacy_settings, hr, hlen]
      · rw [Bool.not_eq_true] at hr
        simp [_seed_review_set_lists_from_legacy_settings, hr]
  · intro skip limit res db' hne heq
    have hlen : db.review_lists.length ≠ 0 :=
      fun hz => hne (List.length_eq_zero.mp hz)
    by_cases hr : db.tables_ready = true
    · simp only [get_all_review_set_lists, hr, Bool.not_true,
        Bool.false_eq_true, if_false, hlen, Except.ok.injEq,
        Prod.mk.injEq] at heq
      exact heq.2.symm
    · rw [Bool.not_eq_true] at hr
      simp [get_all_review_set_lists, hr] at heq
  · intro skip limit res db' hflag heq
    by_cases hr : db.tables_ready = true
    · by_cases hz : db.review_lists.length = 0
      · simp only [get_all_review_set_lists, hr, Bool.not_true,
          Bool.false_eq_true, if_false, hz, if_pos, hflag,
          Except.ok.injEq, Prod.mk.injEq] at heq
        exact heq.2.symm
      · simp only [get_all_review_set_lists, hr, Bool.not_true,
          Bool.false_eq_true, if_false, hz, if_neg,
          Except.ok.injEq, Prod.mk.injEq] at heq
        exact heq.2.symm
    · rw [Bool.not_eq_true] at hr
      simp [get_all_review_set_lists, hr] at heq
  · intro ts v hr hempty hv hparse
    have hlen : ¬ db.review_lists.length > 0 := by
      rw [hempty]; simp
    unfold _seed_review_set_lists_from_legacy_settings
    rw [hr]
    simp only [Bool.not_true, Bool.false_eq_true, if_false, hlen, hv, hparse]
    rw [seed_fold_spec ts db 0]
    rw [hempty]
    simp [hr]

/-- **C3 counterexample.** On the concrete legacy state above, seeding
creates exactly one list — but its name is `"Tax（旧）"` (旧 = "old" /
"legacy"), not the claimed `"Tax（legacy）"`. -/
theorem C3_name_counterexample :
    (_seed_review_set_lists_from_legacy_settings legacySeedDB).2.review_lists
        = [⟨1, "Tax（旧）"⟩] ∧
    (_seed_review_set_lists_from_legacy_settings legacySeedDB).2.review_items
        = [⟨1, 1, 1⟩, ⟨2, 1, 3⟩, ⟨3, 1, 7⟩] ∧
    ("Tax（旧）" : String) ≠ "Tax（legacy）" :=
  ⟨rfl, rfl, by decide⟩

/-- Closed witness for C3 on the same concrete state. -/
theorem C3_legacy_seeding_witness :
    legacySeedDB.tables_ready = true ∧
    (_seed_review_set_lists_from_legacy_settings legacySeedDB).1 = 1 := by
  have h := (C3_legacy_seeding legacySeedDB).2.2.2
    [Json.obj [("subject_name", Json.str "Tax"),
               ("review_days", Json.arr [Json.int 1, Json.int 3, Json.int 7])]]
    "[\x7b\"subject_name\":\"Tax\",\"review_days\":[1,3,7]\x7d]"
    rfl rfl rfl rfl
  refine ⟨rfl, ?_⟩
  rw [h]
  rfl

/-! ### Claims C8 and C9: generator correctness and the offset invariant -/

/-- The generator's accumulation loop, characterized. -/
theorem generate_fold (tb subject : String) (base : Int) (pid : Option Nat) :
    ∀ (items : List ReviewSetItemRow) (db : DB) (acc : List TodoRow),
    items.foldl (fun (acc : DB × List TodoRow) item =>
      let idx := acc.2.length
      let due := base + msPerDay * item.offset_days
      let todo : TodoRow :=
        ⟨acc.1.next_todo_id, tb ++ "_復習" ++ toString (idx + 1) ++ "回目",
         some subject, some due, pid, false⟩
      ({ acc.1 with
         todos := acc.1.todos ++ [todo],
         next_todo_id := acc.1.next_todo_id + 1 },
       acc.2 ++ [todo])) (db, acc)
    = ({ db with
         todos := db.todos
           ++ generatedTodos db.next_todo_id tb subject base pid acc.length
                items,
         next_todo_id := db.next_todo_id + items.length },
       acc ++ generatedTodos db.next_todo_id tb subject base pid acc.length
         items) := by
  intro items
  induction items with
  | nil => intro db acc; simp [generatedTodos]
  | cons item rest ih =>
    intro db acc
    rw [List.foldl_cons]
    simp only []
    rw [ih]
    simp only [generatedTodos, List.length_append, List.length_singleton,
      List.length_cons, Prod.mk.injEq, DB.mk.injEq]
    and_intros <;> first
      | trivial
      | omega
      | simp [List.append_assoc]

/-- Failure case shared by C8 and C9: a found list with no items makes the
generator fail with the "empty set" error (so an empty list can never
generate reminders). -/
theorem generate_empty_items (db : DB) (set_list_id : Nat) (subject : String)
    (base_title : Option String) (start_date : Option Int)
    (project_id : Option Nat) (now : Int) (rs : ReviewSetListRow)
    (hsub : pyStrip subject ≠ "")
    (hfound : get_review_set_list db set_list_id = .ok (some rs))
    (hempty : itemsOfList db rs.id = []) :
    generate_todos_from_review_set db set_list_id subject base_title
      start_date project_id now = .error "set_list has no items" := by
  unfold generate_todos_from_review_set
  rw [if_neg hsub, hfound]
  simp [hempty]

/-- **C8.** `generate` fails with the validation error on a blank subject,
with the "not found" error when the set list does not exist, and with the
"empty set" error when the list has no items — in each case producing no
successor state (nothing written).  On success it appends exactly one
reminder per item in item-id (creation) order, the N-th titled
`"<base>_復習N回目"` (復習 = "review", the fixed topic word), with due
instant `start_date` (default: the current instant) floored to its UTC
midnight plus `offset_days` days, all in one all-or-nothing batch. -/
theorem C8_generate (db : DB) (set_list_id : Nat) (subject : String)
    (base_title : Option String) (start_date : Option Int)
    (project_id : Option Nat) (now : Int) :
    (pyStrip subject = "" →
      generate_todos_from_review_set db set_list_id subject base_title
        start_date project_id now = .error "subject is required") ∧
    (pyStrip subject ≠ "" →
      get_review_set_list db set_list_id = .ok none →
      generate_todos_from_review_set db set_list_id subject base_title
        start_date project_id now = .error "set_list not found") ∧
    (∀ rs : ReviewSetListRow, pyStrip subject ≠ "" →
      get_review_set_list db set_list_id = .ok (some rs) →
      itemsOfList db rs.id = [] →
      generate_todos_from_review_set db set_list_id subject base_title
        start_date project_id now = .error "set_list has no items") ∧
    (∀ rs : ReviewSetListRow, pyStrip subject ≠ "" →
      get_review_set_list db set_list_id = .ok (some rs) →
      itemsOfList db rs.id ≠ [] →
      generate_todos_from_review_set db set_list_id subject base_title
          start_date project_id now =
        .ok (generatedTodos db.next_todo_id
               (titleBaseOf base_title rs.name) (pyStrip subject)
               (msPerDay * Int.fdiv (start_date.getD now) msPerDay)
               project_id 0 (itemsOfList db rs.id),
             { db with
               todos := db.todos
                 ++ generatedTodos db.next_todo_id
                      (titleBaseOf base_title rs.name) (pyStrip subject)
                      (msPerDay * Int.fdiv (start_date.getD now) msPerDay)
                      project_id 0 (itemsOfList db rs.id),
               next_todo_id :=
                 db.next_todo_id + (itemsOfList db rs.id).length })) := by
  refine ⟨?_, ?_, ?_, ?_⟩
  · intro hsub
    unfold generate_todos_from_review_set
    rw [if_pos hsub]
  · intro hsub hnf
    unfold generate_todos_from_review_set
    rw [if_neg hsub, hnf]
  · intro rs hsub hfound hempty
    exact generate_empty_items db set_list_id subject base_title start_date
      project_id now rs hsub hfound hempty
  · intro rs hsub hfound hne
    unfold generate_todos_from_review_set
    rw [if_neg hsub, hfound]
    simp only [List.isEmpty_eq_true, hne, if_false, titleBaseOf]
    rw [generate_fold]
    simp

/-- The item-insertion loop of `create_review_set_list` preserves the
invariant when the payload offsets are non-negative (which pydantic's
`ge=0` guarantees at the API boundary). -/
theorem create_fold_nonneg (lid : Nat) :
    ∀ (its : List ReviewSetItemCreate) (db : DB),
    itemsNonNeg db → (∀ it ∈ its, 0 ≤ it.offset_days) →
    itemsNonNeg (its.foldl (fun acc it =>
      { acc with
        review_items :=
          acc.review_items ++ [⟨acc.next_item_id, lid, it.offset_days⟩],
        next_item_id := acc.next_item_id + 1 }) db) := by
  intro its
  induction its with
  | nil => intro db hdb _; exact hdb
  | cons it rest ih =>
    intro db hdb hits
    rw [List.foldl_cons]
    refine ih _ ?_ (fun x hx => hits x (List.mem_cons_of_mem _ hx))
    intro i hi
    rcases List.mem_append.mp hi with h | h
    · exact hdb i h
    · rw [List.mem_singleton.mp h]
      exact hits it (List.mem_cons_self it rest)

/-- **C9 (amended).** The schema-validated write paths preserve the
non-negativity invariant: `create_review_set_list`,
`create_review_set_item` and `update_review_set_item` keep every stored
item's offset non-negative whenever the payload offsets are non-negative
(pydantic enforces `ge=0` on those payloads), and deletions only remove
rows; a list with no items cannot generate reminders (the generator
rejects it).  Legacy seeding, however, copies `int(day)` verbatim and can
store a negative offset (see the counterexample). -/
theorem C9_offset_invariant (db : DB) (hdb : itemsNonNeg db) :
    (∀ (payload : ReviewSetListCreate) (r : ReviewSetListRow) (db' : DB),
      (∀ it ∈ payload.items, 0 ≤ it.offset_days) →
      create_review_set_list db payload = .ok (r, db') → itemsNonNeg db') ∧
    (∀ (i : Nat) (payload : ReviewSetItemCreate) (res : Option ReviewSetItemRow)
        (db' : DB),
      0 ≤ payload.offset_days →
      create_review_set_item db i payload = .ok (res, db') →
      itemsNonNeg db') ∧
    (∀ (item_id : Nat) (off : Int) (res : Option ReviewSetItemRow) (db' : DB),
      0 ≤ off →
      update_review_set_item db item_id off = .ok (res, db') →
      itemsNonNeg db') ∧
    (∀ (item_id : Nat) (res : Option ReviewSetItemRow) (db' : DB),
      delete_review_set_item db item_id = .ok (res, db') → itemsNonNeg db') ∧
    (∀ (i : Nat) (res : Option ReviewSetListRow) (db' : DB),
      delete_review_set_list db i = .ok (res, db') → itemsNonNeg db') ∧
    (∀ (set_list_id : Nat) (subject : String) (base_title : Option String)
        (start_date : Option Int) (project_id : Option Nat) (now : Int)
        (rs : ReviewSetListRow),
      pyStrip subject ≠ "" →
      get_review_set_list db set_list_id = .ok (some rs) →
      itemsOfList db rs.id = [] →
      generate_todos_from_review_set db set_list_id subject base_title
        start_date project_id now = .error "set_list has no items") := by
  refine ⟨?_, ?_, ?_, ?_, ?_, ?_⟩
  · intro payload r db' hpay heq
    by_cases hr : db.tables_ready = true
    · simp only [create_review_set_list, hr, Bool.not_true,
        Bool.false_eq_true, if_false, Except.ok.injEq, Prod.mk.injEq] at heq
      obtain ⟨-, h2⟩ := heq
      subst h2
      exact create_fold_nonneg db.next_list_id payload.items _ hdb hpay
    · rw [Bool.not_eq_true] at hr
      simp [create_review_set_list, hr] at heq
  · intro i payload res db' hpay heq
    cases hg : get_review_set_list db i with
    | error e => rw [create_review_set_item, hg] at heq; simp at heq
    | ok o =>
      rw [create_review_set_item, hg] at heq
      cases o with
      | none =>
        simp only [Except.ok.injEq, Prod.mk.injEq] at heq
        obtain ⟨-, h2⟩ := heq
        subst h2
        exact hdb
      | some rs =>
        simp only [Except.ok.injEq, Prod.mk.injEq] at heq
        obtain ⟨-, h2⟩ := heq
        subst h2
        intro x hx
        rcases List.mem_append.mp hx with h | h
        · exact hdb x h
        · rw [List.mem_singleton.mp h]
          exact hpay
  · intro item_id off res db' hoff heq
    by_cases hr : db.tables_ready = true
    · rw [update_review_set_item] at heq
      simp only [hr, Bool.not_true, Bool.false_eq_true, if_false] at heq
      cases hf : db.review_items.find? (fun i => i.id == item_id) with
      | none =>
        rw [hf] at heq
        simp only [Except.ok.injEq, Prod.mk.injEq] at heq
        obtain ⟨-, h2⟩ := heq
        subst h2
        exact hdb
      | some item =>
        rw [hf] at heq
        simp only [Except.ok.injEq, Prod.mk.injEq] at heq
        obtain ⟨-, h2⟩ := heq
        subst h2
        intro x hx
        rcases List.mem_map.mp hx with ⟨y, hy, hxy⟩
        by_cases hid : y.id = item_id
        · rw [if_pos hid] at hxy
          rw [← hxy]
          exact hoff
        · rw [if_neg hid] at hxy
          rw [← hxy]
          exact hdb y hy
    · rw [Bool.not_eq_true] at hr
      simp [update_review_set_item, hr] at heq
  · intro item_id res db' heq
    by_cases hr : db.tables_ready = true
    · rw [delete_review_set_item] at heq
      simp only [hr, Bool.not_true, Bool.false_eq_true, if_false] at heq
      cases hf : db.review_items.find? (fun i => i.id == item_id) with
      | none =>
        rw [hf] at heq
        simp only [Except.ok.injEq, Prod.mk.injEq] at heq
        obtain ⟨-, h2⟩ := heq
        subst h2
        exact hdb
      | some item =>
        rw [hf] at heq
        simp only [Except.ok.injEq, Prod.mk.injEq] at heq
        obtain ⟨-, h2⟩ := heq
        subst h2
        intro x hx
        exact hdb x (List.mem_of_mem_filter hx)
    · rw [Bool.not_eq_true] at hr
      simp [delete_review_set_item, hr] at heq
  · intro i res db' heq
    cases hg : get_review_set_list db i with
    | error e => rw [delete_review_set_list, hg] at heq; simp at heq
    | ok o =>
      rw [delete_review_set_list, hg] at heq
      cases o with
      | none =>
        simp only [Except.ok.injEq, Prod.mk.injEq] at heq
        obtain ⟨-, h2⟩ := heq
        subst h2
        exact hdb
      | some rs =>
        simp only [Except.ok.injEq, Prod.mk.injEq] at heq
        obtain ⟨-, h2⟩ := heq
        subst h2
        by_cases hz : ((db.review_lists.filter (fun r => r.id ≠ rs.id)).length = 0)
        · intro x hx
          simp only [if_pos hz, create_or_update_setting] at hx
          exact hdb x (List.mem_of_mem_filter hx)
        · intro x hx
          simp only [if_neg hz] at hx
          exact hdb x (List.mem_of_mem_filter hx)
  · intro set_list_id subject base_title start_date project_id now rs hsub
      hfound hempty
    exact generate_empty_items db set_list_id subject base_title start_date
      project_id now rs hsub hfound hempty

/-- **C9 counterexample.** Legacy seeding — one of the reminder-set
operations the claim quantifies over — stores an item with
`offset_days = -1` on a concrete state, so not every stored item is
non-negative. -/
theorem C9_negative_offset_counterexample :
    (_seed_review_set_lists_from_legacy_settings negSeedDB).2.review_items
        = [⟨1, 1, -1⟩, ⟨2, 1, 3⟩] ∧
    ¬ itemsNonNeg (_seed_review_set_lists_from_legacy_settings negSeedDB).2 := by
  refine ⟨rfl, ?_⟩
  intro h
  have := h ⟨1, 1, -1⟩ (by
    rw [show (_seed_review_set_lists_from_legacy_settings negSeedDB).2.review_items
        = [⟨1, 1, -1⟩, ⟨2, 1, 3⟩] from rfl]
    exact List.mem_cons_self _ _)
  exact absurd this (by decide)

/-- Closed witness for C8: generating from the two-item list at a mid-day
"now" (day 3 plus one hour) floors the start to midnight of day 3 and
produces the two numbered reminders. -/
theorem C8_generate_witness :
    pyStrip "Tax" ≠ "" ∧
    itemsOfList genDB 1 ≠ [] ∧
    (generate_todos_from_review_set genDB 1 "Tax" none none none
        262800000).map (fun p => p.1.map (fun t => (t.title, t.due_date)))
      = .ok [("税法セット_復習1回目", some (259200000 : Int)),
             ("税法セット_復習2回目", some (864000000 : Int))] := by
  have h := (C8_generate genDB 1 "Tax" none none none 262800000).2.2.2
    ⟨1, "税法セット"⟩ (by decide) rfl (by decide)
  refine ⟨by decide, by decide, ?_⟩
  rw [h]
  rfl

/-- Closed witness for C9: the invariant holds initially and is preserved
by a concrete validated create. -/
theorem C9_offset_invariant_witness :
    itemsNonNeg emptyDB ∧ itemsNonNeg createdDB := by
  have hdb : itemsNonNeg emptyDB := by intro i hi; simp [emptyDB] at hi
  refine ⟨hdb, ?_⟩
  exact (C9_offset_invariant emptyDB hdb).1 ⟨"復習セットA", [⟨1⟩, ⟨7⟩]⟩
    ⟨1, "復習セットA"⟩ createdDB (by decide) rfl

/-! ### Calendar correctness -/

theorem daysInMonth_pos (y m : Nat) : 0 < daysInMonth y m := by
  unfold daysInMonth
  split
  · split <;> omega
  · split <;> omega

theorem daysBeforeMonth_succ (y m : Nat) (hm : 1 ≤ m) :
    daysBeforeMonth y (m + 1) = daysBeforeMonth y m + daysInMonth y m := by
  match m, hm with
  | m + 1, _ => rfl

theorem daysBeforeMonth_mono (y : Nat) {m m' : Nat} (h : m ≤ m') :
    daysBeforeMonth y m ≤ daysBeforeMonth y m' := by
  induction m' with
  | zero => simp_all
  | succ k ih =>
    rcases Nat.lt_or_ge m (k + 1) with hk | hk
    · have hmk : m ≤ k := by omega
      rcases Nat.eq_zero_or_pos k with rfl | hkpos
      · interval_cases m <;> simp [daysBeforeMonth]
      · calc daysBeforeMonth y m ≤ daysBeforeMonth y k := ih hmk
          _ ≤ daysBeforeMonth y (k + 1) := by
              rw [daysBeforeMonth_succ y k hkpos]; omega
    · have hmeq : m = k + 1 := by omega
      rw [hmeq]

theorem daysBeforeMonth_13 (y : Nat) :
    daysBeforeMonth y 13 = daysInYear y := by
  cases h : isLeapYear y <;>
    simp [daysBeforeMonth, daysInMonth, daysInYear, h]

theorem daysBeforeYear_succ (y : Nat) (hy : 1 ≤ y) :
    daysBeforeYear (y + 1) = daysBeforeYear y + daysInYear y := by
  have hiff : isLeapYear y = true ↔ (y % 4 = 0 ∧ (y % 100 ≠ 0 ∨ y % 400 = 0)) := by
    simp [isLeapYear]
  unfold daysBeforeYear daysInYear leapsBefore
  cases h : isLeapYear y
  · simp only [h, Bool.false_eq_true, false_iff] at hiff
    simp only [h, Bool.false_eq_true, if_false]
    omega
  · simp only [h, true_iff] at hiff
    simp only [h, if_true]
    omega

theorem daysBeforeYear_mono {y y' : Nat} (h : y ≤ y') :
    daysBeforeYear y ≤ daysBeforeYear y' := by
  unfold daysBeforeYear leapsBefore
  omega

/-- A valid date's day number stays below next year's Jan 1. -/
theorem rdOfCivil_lt_next_year {y m d : Nat} (h : ValidCivil y m d) :
    rdOfCivil y m d < daysBeforeYear (y + 1) := by
  obtain ⟨hy, hm1, hm2, hd1, hd2⟩ := h
  have h1 : daysBeforeMonth y m + (d - 1) < daysBeforeMonth y (m + 1) := by
    rw [daysBeforeMonth_succ y m hm1]
    omega
  have h2 : daysBeforeMonth y (m + 1) ≤ daysBeforeMonth y 13 :=
    daysBeforeMonth_mono y (by omega)
  rw [daysBeforeYear_succ y hy, daysBeforeMonth_13] at *
  unfold rdOfCivil
  omega

/-- Strict monotonicity of the day number in the lexicographic civil
order. -/
theorem rdOfCivil_lt_of_lex {y1 m1 d1 y2 m2 d2 : Nat}
    (h1 : ValidCivil y1 m1 d1) (h2 : ValidCivil y2 m2 d2)
    (hlex : y1 < y2 ∨ (y1 = y2 ∧ (m1 < m2 ∨ (m1 = m2 ∧ d1 < d2)))) :
    rdOfCivil y1 m1 d1 < rdOfCivil y2 m2 d2 := by
  obtain ⟨hy1, hm11, hm12, hd11, hd12⟩ := h1
  obtain ⟨hy2, hm21, hm22, hd21, hd22⟩ := h2
  rcases hlex with hy | ⟨rfl, hm | ⟨rfl, hd⟩⟩
  · have ha : rdOfCivil y1 m1 d1 < daysBeforeYear (y1 + 1) :=
      rdOfCivil_lt_next_year ⟨hy1, hm11, hm12, hd11, hd12⟩
    have hb : daysBeforeYear (y1 + 1) ≤ daysBeforeYear y2 :=
      daysBeforeYear_mono (by omega)
    have hc : daysBeforeYear y2 ≤ rdOfCivil y2 m2 d2 := by
      unfold rdOfCivil; omega
    omega
  · have ha : daysBeforeMonth y1 m1 + (d1 - 1) < daysBeforeMonth y1 (m1 + 1) := by
      rw [daysBeforeMonth_succ y1 m1 hm11]
      omega
    have hb : daysBeforeMonth y1 (m1 + 1) ≤ daysBeforeMonth y1 m2 :=
      daysBeforeMonth_mono y1 (by omega)
    unfold rdOfCivil
    omega
  · unfold rdOfCivil
    omega

theorem findYear_bracket :
    ∀ (fuel y rd : Nat), daysBeforeYear y ≤ rd →
      rd < daysBeforeYear (y + fuel + 1) →
      y ≤ findYear fuel y rd ∧
      daysBeforeYear (findYear fuel y rd) ≤ rd ∧
      rd < daysBeforeYear (findYear fuel y rd + 1) := by
  intro fuel
  induction fuel with
  | zero =>
    intro y rd h1 h2
    exact ⟨le_refl y, h1, by simpa using h2⟩
  | succ f ih =>
    intro y rd h1 h2
    unfold findYear
    by_cases hc : daysBeforeYear (y + 1) ≤ rd
    · rw [if_pos hc]
      have h2' : rd < daysBeforeYear (y + 1 + f + 1) := by
        rw [show y + 1 + f + 1 = y + (f + 1) + 1 by omega]
        exact h2
      have := ih (y + 1) rd hc h2'
      exact ⟨by omega, this.2.1, this.2.2⟩
    · rw [if_neg hc]
      exact ⟨le_refl y, h1, by omega⟩

theorem yearOfRd_correct {rd : Nat} (h : rd < rdLimit) :
    1 ≤ yearOfRd rd ∧ yearOfRd rd ≤ 9999 ∧
    daysBeforeYear (yearOfRd rd) ≤ rd ∧
    rd < daysBeforeYear (yearOfRd rd + 1) := by
  have hinit : daysBeforeYear (rd / 366 + 1) ≤ rd := by
    unfold daysBeforeYear leapsBefore
    omega
  have hlim : rd < 3652059 := by
    unfold rdLimit daysBeforeYear leapsBefore at h
    omega
  have hfuel : rd < daysBeforeYear (rd / 366 + 1 + 64 + 1) := by
    unfold daysBeforeYear leapsBefore
    omega
  have hb := findYear_bracket 64 (rd / 366 + 1) rd hinit hfuel
  have hyeq : yearOfRd rd = findYear 64 (rd / 366 + 1) rd := rfl
  have hup : yearOfRd rd ≤ 9999 := by
    by_contra hgt
    push_neg at hgt
    have hmono : daysBeforeYear 10000 ≤ daysBeforeYear (yearOfRd rd) :=
      daysBeforeYear_mono (by omega)
    rw [hyeq] at hmono
    unfold rdLimit at h
    omega
  rw [hyeq] at hup ⊢
  exact ⟨by omega, hup, hb.2.1, hb.2.2⟩

theorem findMonth_bracket (y : Nat) :
    ∀ (fuel m doy : Nat), daysBeforeMonth y m ≤ doy →
      doy < daysBeforeMonth y (m + fuel + 1) →
      m ≤ findMonth y fuel m doy ∧ findMonth y fuel m doy ≤ m + fuel ∧
      daysBeforeMonth y (findMonth y fuel m doy) ≤ doy ∧
      doy < daysBeforeMonth y (findMonth y fuel m doy + 1) := by
  intro fuel
  induction fuel with
  | zero =>
    intro m doy h1 h2
    exact ⟨le_refl m, le_refl m, h1, by simpa using h2⟩
  | succ f ih =>
    intro m doy h1 h2
    unfold findMonth
    by_cases hc : daysBeforeMonth y (m + 1) ≤ doy
    · rw [if_pos hc]
      have h2' : doy < daysBeforeMonth y (m + 1 + f + 1) := by
        rw [show m + 1 + f + 1 = m + (f + 1) + 1 by omega]
        exact h2
      have := ih (m + 1) doy hc h2'
      exact ⟨by omega, by omega, this.2.2.1, this.2.2.2⟩
    · rw [if_neg hc]
      exact ⟨le_refl m, by omega, h1, by omega⟩

theorem monthOfDoy_correct {y doy : Nat} (h : doy < daysInYear y) :
    1 ≤ monthOfDoy y doy ∧ monthOfDoy y doy ≤ 12 ∧
    daysBeforeMonth y (monthOfDoy y doy) ≤ doy ∧
    doy < daysBeforeMonth y (monthOfDoy y doy + 1) := by
  have h13 : doy < daysBeforeMonth y (1 + 11 + 1) := by
    rw [show (1 + 11 + 1 : Nat) = 13 by norm_num, daysBeforeMonth_13]
    exact h
  have hb := findMonth_bracket y 11 1 doy (by simp [daysBeforeMonth]) h13
  have hmeq : monthOfDoy y doy = findMonth y 11 1 doy := rfl
  rw [hmeq]
  exact ⟨hb.1, by omega, hb.2.2.1, hb.2.2.2⟩

theorem civilOfRd_correct {rd : Nat} (h : rd < rdLimit) :
    ValidCivil (civilOfRd rd).1 (civilOfRd rd).2.1 (civilOfRd rd).2.2 ∧
    (civilOfRd rd).1 ≤ 9999 ∧
    rdOfCivil (civilOfRd rd).1 (civilOfRd rd).2.1 (civilOfRd rd).2.2 = rd := by
  obtain ⟨hy1, hy2, hylo, hyhi⟩ := yearOfRd_correct h
  set y := yearOfRd rd with hy
  set doy := rd - daysBeforeYear y with hdoy0
  have hdy := daysBeforeYear_succ y hy1
  have hdoy : doy < daysInYear y := by omega
  obtain ⟨hm1, hm2, hmlo, hmhi⟩ := monthOfDoy_correct hdoy
  set m := monthOfDoy y doy with hm
  have hsucc := daysBeforeMonth_succ y m hm1
  have hciv : civilOfRd rd = (y, m, doy - daysBeforeMonth y m + 1) := rfl
  rw [hciv]
  refine ⟨⟨hy1, hm1, hm2, ?_, ?_⟩, hy2, ?_⟩
  · show 1 ≤ doy - daysBeforeMonth y m + 1
    omega
  · show doy - daysBeforeMonth y m + 1 ≤ daysInMonth y m
    omega
  · show daysBeforeYear y + daysBeforeMonth y m
        + (doy - daysBeforeMonth y m + 1 - 1) = rd
    omega

/-! ### Lexicographic order on date keys

SQL compares `date_key` strings bytewise; Lean's `String` order is the
lexicographic order on characters, which agrees on ASCII.  Zero-padded
date keys of valid dates compare like the dates themselves. -/

theorem lex_cons_lt_iff (a b : Char) (as bs : List Char) :
    List.Lex (· < ·) (a :: as) (b :: bs)
      ↔ (a < b ∨ (a = b ∧ List.Lex (· < ·) as bs)) := by
  constructor
  · intro h
    cases h with
    | cons h => exact Or.inr ⟨rfl, h⟩
    | rel h => exact Or.inl h
  · rintro (h | ⟨rfl, h⟩)
    · exact List.Lex.rel h
    · exact List.Lex.cons h

theorem digitChar_lt_iff :
    ∀ a < 10, ∀ b < 10,
      ((Nat.digitChar a < Nat.digitChar b) ↔ a < b) := by decide

theorem digitChar_eq_iff :
    ∀ a < 10, ∀ b < 10,
      ((Nat.digitChar a = Nat.digitChar b) ↔ a = b) := by decide

theorem nat_lt_iff_div_mod {k : Nat} (hk : 0 < k) (a b : Nat) :
    a < b ↔ (a / k < b / k ∨ (a / k = b / k ∧ a % k < b % k)) := by
  constructor
  · intro h
    rcases lt_trichotomy (a / k) (b / k) with h1 | h1 | h1
    · exact Or.inl h1
    · refine Or.inr ⟨h1, ?_⟩
      by_contra hm
      push_neg at hm
      have ha' := Nat.div_add_mod a k
      rw [h1] at ha'
      have hb' := Nat.div_add_mod b k
      omega
    · exact absurd (Nat.div_le_div_right (c := k) h.le) (by omega)
  · rintro (h1 | ⟨h1, h2⟩)
    · by_contra hab
      push_neg at hab
      exact absurd (Nat.div_le_div_right (c := k) hab) (by omega)
    · have ha' := Nat.div_add_mod a k
      rw [h1] at ha'
      have hb' := Nat.div_add_mod b k
      omega

theorem nat_eq_iff_div_mod {k : Nat} (hk : 0 < k) (a b : Nat) :
    a = b ↔ (a / k = b / k ∧ a % k = b % k) := by
  constructor
  · rintro rfl; exact ⟨rfl, rfl⟩
  · rintro ⟨h1, h2⟩
    have ha' := Nat.div_add_mod a k
    rw [h1] at ha'
    have hb' := Nat.div_add_mod b k
    omega

theorem padNum_append_lt_iff :
    ∀ (w a b : Nat) (r1 r2 : List Char), a < 10 ^ w → b < 10 ^ w →
      (List.Lex (· < ·) (padNum w a ++ r1) (padNum w b ++ r2)
        ↔ (a < b ∨ (a = b ∧ List.Lex (· < ·) r1 r2))) := by
  intro w
  induction w with
  | zero =>
    intro a b r1 r2 ha hb
    have ha0 : a = 0 := by simpa using ha
    have hb0 : b = 0 := by simpa using hb
    subst ha0; subst hb0
    simp [padNum]
  | succ w ih =>
    intro a b r1 r2 ha hb
    have hpow : 0 < 10 ^ w := Nat.pos_pow_of_pos w (by norm_num)
    have hdiva : a / 10 ^ w < 10 := by
      apply Nat.div_lt_of_lt_mul
      rw [pow_succ] at ha
      omega
    have hdivb : b / 10 ^ w < 10 := by
      apply Nat.div_lt_of_lt_mul
      rw [pow_succ] at hb
      omega
    simp only [padNum, List.cons_append]
    rw [lex_cons_lt_iff,
      digitChar_lt_iff _ hdiva _ hdivb,
      digitChar_eq_iff _ hdiva _ hdivb,
      ih (a % 10 ^ w) (b % 10 ^ w) r1 r2 (Nat.mod_lt _ hpow) (Nat.mod_lt _ hpow),
      nat_lt_iff_div_mod hpow a b, nat_eq_iff_div_mod hpow a b]
    tauto

theorem padNum_lt_iff (w a b : Nat) (ha : a < 10 ^ w) (hb : b < 10 ^ w) :
    (List.Lex (· < ·) (padNum w a) (padNum w b)) ↔ a < b := by
  have h := padNum_append_lt_iff w a b [] []
  rw [List.append_nil, List.append_nil] at h
  rw [h ha hb]
  constructor
  · rintro (h1 | ⟨-, h1⟩)
    · exact h1
    · cases h1
  · exact Or.inl

theorem strLtB_iff_lex :
    ∀ a b : List Char, strLtB a b = true ↔ List.Lex (· < ·) a b := by
  intro a
  induction a with
  | nil =>
    intro b
    cases b with
    | nil => simp [strLtB]
    | cons y ys => simp [strLtB]; exact List.Lex.nil
  | cons x xs ih =>
    intro b
    cases b with
    | nil =>
      simp only [strLtB, Bool.false_eq_true, false_iff]
      intro h
      cases h
    | cons y ys =>
      by_cases h1 : x < y
      · simp only [strLtB, if_pos h1, true_iff]
        exact List.Lex.rel h1
      · by_cases h2 : y < x
        · simp only [strLtB, if_neg h1, if_pos h2, Bool.false_eq_true, false_iff]
          intro h
          cases h with
          | cons h => exact absurd h2 (lt_irrefl x)
          | rel h => exact absurd h h1
        · have hxy : x = y := le_antisymm (le_of_not_lt h2) (le_of_not_lt h1)
          subst hxy
          simp only [strLtB, if_neg h1, if_neg h2]
          rw [ih ys, lex_cons_lt_iff]
          simp [lt_irrefl]

theorem dateKey_lt_iff {y1 m1 d1 y2 m2 d2 : Nat}
    (hy1 : y1 < 10000) (hy2 : y2 < 10000) (hm1 : m1 < 100) (hm2 : m2 < 100)
    (hd1 : d1 < 100) (hd2 : d2 < 100) :
    (strLt (dateKeyOfCivil y1 m1 d1) (dateKeyOfCivil y2 m2 d2) = true)
      ↔ (y1 < y2 ∨ (y1 = y2 ∧ (m1 < m2 ∨ (m1 = m2 ∧ d1 < d2)))) := by
  rw [show strLt (dateKeyOfCivil y1 m1 d1) (dateKeyOfCivil y2 m2 d2)
      = strLtB (padNum 4 y1 ++ '-' :: (padNum 2 m1 ++ '-' :: padNum 2 d1))
          (padNum 4 y2 ++ '-' :: (padNum 2 m2 ++ '-' :: padNum 2 d2)) from rfl]
  rw [strLtB_iff_lex]
  rw [padNum_append_lt_iff 4 y1 y2 _ _ (by simpa using hy1) (by simpa using hy2),
    lex_cons_lt_iff]
  rw [padNum_append_lt_iff 2 m1 m2 _ _ (by simpa using hm1) (by simpa using hm2),
    lex_cons_lt_iff,
    padNum_lt_iff 2 d1 d2 (by simpa using hd1) (by simpa using hd2)]
  simp [lt_irrefl]

theorem daysInMonth_le_31 (y m : Nat) : daysInMonth y m ≤ 31 := by
  unfold daysInMonth
  split
  · split <;> omega
  · split <;> omega

/-- A day-number strict inequality shows up as a lexicographic civil-date
inequality. -/
theorem lex_of_rd_lt {y1 m1 d1 y2 m2 d2 : Nat}
    (h1 : ValidCivil y1 m1 d1) (h2 : ValidCivil y2 m2 d2)
    (h : rdOfCivil y1 m1 d1 < rdOfCivil y2 m2 d2) :
    y1 < y2 ∨ (y1 = y2 ∧ (m1 < m2 ∨ (m1 = m2 ∧ d1 < d2))) := by
  rcases lt_trichotomy y1 y2 with hy | hy | hy
  · exact Or.inl hy
  · rcases lt_trichotomy m1 m2 with hm | hm | hm
    · exact Or.inr ⟨hy, Or.inl hm⟩
    · rcases lt_trichotomy d1 d2 with hd | hd | hd
      · exact Or.inr ⟨hy, Or.inr ⟨hm, hd⟩⟩
      · rw [hy, hm, hd] at h
        exact absurd h (lt_irrefl _)
      · have := rdOfCivil_lt_of_lex h2 h1
          (Or.inr ⟨hy.symm, Or.inr ⟨hm.symm, hd⟩⟩)
        omega
    · have := rdOfCivil_lt_of_lex h2 h1 (Or.inr ⟨hy.symm, Or.inl hm⟩)
      omega
  · have := rdOfCivil_lt_of_lex h2 h1 (Or.inl hy)
    omega

/-- Bounds needed to compare date keys of valid civil dates. -/
theorem civil_bounds {rd : Nat} (h : rd < rdLimit) :
    (civilOfRd rd).1 < 10000 ∧ (civilOfRd rd).2.1 < 100 ∧
    (civilOfRd rd).2.2 < 100 := by
  obtain ⟨⟨hy1, hm1, hm2, hd1, hd2⟩, hy2, -⟩ := civilOfRd_correct h
  have := daysInMonth_le_31 (civilOfRd rd).1 (civilOfRd rd).2.1
  exact ⟨by omega, by omega, by omega⟩

/-- ISO keys of in-range day numbers are strictly increasing. -/
theorem isoOfRd_strLt {r1 r2 : Int} (h0 : 0 ≤ r1) (h12 : r1 < r2)
    (hlim : r2 < (rdLimit : Int)) :
    strLt (isoOfRd r1) (isoOfRd r2) = true := by
  have h1n : r1.toNat < rdLimit := by omega
  have h2n : r2.toNat < rdLimit := by omega
  obtain ⟨hv1, -, hr1⟩ := civilOfRd_correct h1n
  obtain ⟨hv2, -, hr2⟩ := civilOfRd_correct h2n
  obtain ⟨hb1y, hb1m, hb1d⟩ := civil_bounds h1n
  obtain ⟨hb2y, hb2m, hb2d⟩ := civil_bounds h2n
  have hrdlt : rdOfCivil (civilOfRd r1.toNat).1 (civilOfRd r1.toNat).2.1
      (civilOfRd r1.toNat).2.2
      < rdOfCivil (civilOfRd r2.toNat).1 (civilOfRd r2.toNat).2.1
        (civilOfRd r2.toNat).2.2 := by
    rw [hr1, hr2]
    omega
  exact (dateKey_lt_iff hb1y hb2y hb1m hb2m hb1d hb2d).mpr
    (lex_of_rd_lt hv1 hv2 hrdlt)

/-- ISO keys of in-range day numbers never decrease. -/
theorem isoOfRd_strLe {r1 r2 : Int} (h0 : 0 ≤ r1) (h12 : r1 ≤ r2)
    (hlim : r2 < (rdLimit : Int)) :
    strLe (isoOfRd r1) (isoOfRd r2) = true := by
  have h1n : r1.toNat < rdLimit := by omega
  have h2n : r2.toNat < rdLimit := by omega
  obtain ⟨hv1, -, hr1⟩ := civilOfRd_correct h1n
  obtain ⟨hv2, -, hr2⟩ := civilOfRd_correct h2n
  obtain ⟨hb1y, hb1m, hb1d⟩ := civil_bounds h1n
  obtain ⟨hb2y, hb2m, hb2d⟩ := civil_bounds h2n
  unfold strLe
  rw [Bool.not_eq_true']
  rw [← Bool.not_eq_true]
  intro hlt
  have hlex := (dateKey_lt_iff hb2y hb1y hb2m hb1m hb2d hb1d).mp hlt
  have := rdOfCivil_lt_of_lex hv2 hv1 hlex
  rw [hr1, hr2] at this
  omega

/-! ## Claim C4 -/

theorem sumLedgerMs_nonneg (db : DB) (p : LedgerEntry → Bool)
    (h : ∀ e ∈ db.ledger, 0 ≤ e.last_total_ms) : 0 ≤ sumLedgerMs db p := by
  unfold sumLedgerMs
  apply List.sum_nonneg
  intro x hx
  obtain ⟨e, he, rfl⟩ := List.mem_map.mp hx
  exact h e (List.mem_of_mem_filter he)

/-- **C4.** For a user and a valid `yyyy-MM-dd` date key, the time summary
returns `today_ms` = the sum of `last_total_ms` over the user's rows with
exactly that date key, and `week_ms` = the same sum over rows whose key
lies in the half-open string range `[Monday-of-week, next-Monday)`; both
are non-negative when every stored total is (as every state reached by
`apply_study_time_total_ms` is, by C1).  And the §8 sequence 600000,
600000, 900000 on one fresh identity returns deltas 600000, 0, 300000
with a today total of 900000. -/
theorem C4_time_summary (db : DB) (u key : String) (y m d : Nat)
    (hparse : parseDateKey key = some (y, m, d))
    (hnn : ∀ e ∈ db.ledger, 0 ≤ e.last_total_ms) :
    get_study_time_summary_ms db u key
      = some
        (sumLedgerMs db (fun e => e.key.user_id == u && e.key.date_key == key),
         sumLedgerMs db (fun e => e.key.user_id == u
           && strLe (isoOfRd ((rdOfCivil y m d : Int)
                - (weekdayOfRd (rdOfCivil y m d) : Int))) e.key.date_key
           && strLt e.key.date_key
                (isoOfRd ((rdOfCivil y m d : Int)
                  - (weekdayOfRd (rdOfCivil y m d) : Int) + 7)))) ∧
    0 ≤ sumLedgerMs db
        (fun e => e.key.user_id == u && e.key.date_key == key) ∧
    0 ≤ sumLedgerMs db (fun e => e.key.user_id == u
          && strLe (isoOfRd ((rdOfCivil y m d : Int)
               - (weekdayOfRd (rdOfCivil y m d) : Int))) e.key.date_key
          && strLt e.key.date_key
               (isoOfRd ((rdOfCivil y m d : Int)
                 - (weekdayOfRd (rdOfCivil y m d) : Int) + 7))) ∧
    ((apply_study_time_total_ms emptyDB ⟨"u", "2026-01-05", "Tax", "s1"⟩
        600000).1 = 600000 ∧
      (apply_study_time_total_ms
        (apply_study_time_total_ms emptyDB ⟨"u", "2026-01-05", "Tax", "s1"⟩
          600000).2 ⟨"u", "2026-01-05", "Tax", "s1"⟩ 600000).1 = 0 ∧
      (apply_study_time_total_ms
        (apply_study_time_total_ms
          (apply_study_time_total_ms emptyDB ⟨"u", "2026-01-05", "Tax", "s1"⟩
            600000).2 ⟨"u", "2026-01-05", "Tax", "s1"⟩ 600000).2
        ⟨"u", "2026-01-05", "Tax", "s1"⟩ 900000).1 = 300000 ∧
      get_study_time_summary_ms
        (apply_study_time_total_ms
          (apply_study_time_total_ms
            (apply_study_time_total_ms emptyDB
              ⟨"u", "2026-01-05", "Tax", "s1"⟩ 600000).2
            ⟨"u", "2026-01-05", "Tax", "s1"⟩ 600000).2
          ⟨"u", "2026-01-05", "Tax", "s1"⟩ 900000).2 "u" "2026-01-05"
        = some (900000, 900000)) := by
  refine ⟨?_, sumLedgerMs_nonneg db _ hnn, sumLedgerMs_nonneg db _ hnn,
    rfl, rfl, rfl, rfl⟩
  unfold get_study_time_summary_ms
  rw [hparse]

/-- Closed witness for C4 at the §8 scenario's date key and final state. -/
theorem C4_time_summary_witness :
    parseDateKey "2026-01-05" = some (2026, 1, 5) ∧
    get_study_time_summary_ms
        { emptyDB with
          ledger := [⟨⟨"u", "2026-01-05", "Tax", "s1"⟩, 900000⟩] }
        "u" "2026-01-05"
      = some
        (sumLedgerMs
          { emptyDB with
            ledger := [⟨⟨"u", "2026-01-05", "Tax", "s1"⟩, 900000⟩] }
          (fun e => e.key.user_id == "u" && e.key.date_key == "2026-01-05"),
         sumLedgerMs
          { emptyDB with
            ledger := [⟨⟨"u", "2026-01-05", "Tax", "s1"⟩, 900000⟩] }
          (fun e => e.key.user_id == "u"
            && strLe (isoOfRd ((rdOfCivil 2026 1 5 : Int)
                 - (weekdayOfRd (rdOfCivil 2026 1 5) : Int))) e.key.date_key
            && strLt e.key.date_key
                 (isoOfRd ((rdOfCivil 2026 1 5 : Int)
                   - (weekdayOfRd (rdOfCivil 2026 1 5) : Int) + 7)))) := by
  refine ⟨rfl, ?_⟩
  exact (C4_time_summary
    { emptyDB with
      ledger := [⟨⟨"u", "2026-01-05", "Tax", "s1"⟩, 900000⟩] }
    "u" "2026-01-05" 2026 1 5 rfl
    (by intro e he; simp [emptyDB] at he; rw [he]; norm_num)).1

/-! ### Streak scans via Nat.findGreatest -/

theorem findGreatest_congr {P Q : ℕ → Prop} [DecidablePred P]
    [DecidablePred Q] :
    ∀ n, (∀ k, k ≤ n → (P k ↔ Q k)) →
      Nat.findGreatest P n = Nat.findGreatest Q n := by
  intro n
  induction n with
  | zero => intro _; rfl
  | succ n ih =>
    intro h
    rw [Nat.findGreatest_succ, Nat.findGreatest_succ]
    by_cases hp : P (n + 1)
    · rw [if_pos hp, if_pos ((h (n + 1) le_rfl).mp hp)]
    · rw [if_neg hp, if_neg (fun hq => hp ((h (n + 1) le_rfl).mpr hq)),
        ih (fun k hk => h k (by omega))]

theorem currentStreak_eq_findGreatest (active : Int → Bool) :
    ∀ (n : Nat) (base : Int),
      currentStreak active base n
        = Nat.findGreatest (fun k => ∀ i < k, active (base - i) = true) n := by
  intro n
  induction n with
  | zero => intro base; rfl
  | succ n ih =>
    intro base
    by_cases hb : active base = true
    · rw [show currentStreak active base (n + 1)
          = currentStreak active (base - 1) n + 1 by
            simp [currentStreak, hb]]
      rw [ih (base - 1)]
      obtain ⟨m, hm⟩ : ∃ m, Nat.findGreatest
          (fun k => ∀ i < k, active (base - 1 - (i : Int)) = true) n = m :=
        ⟨_, rfl⟩
      rw [hm]
      symm
      have hm_le : m ≤ n := hm ▸ Nat.findGreatest_le n
      have hm_spec : ∀ i < m, active (base - 1 - (i : Int)) = true :=
        hm ▸ Nat.findGreatest_spec
          (P := fun k => ∀ i < k, active (base - 1 - (i : Int)) = true)
          (Nat.zero_le n) (fun i hi => absurd hi (Nat.not_lt_zero i))
      rw [Nat.findGreatest_eq_iff]
      refine ⟨by omega, fun _ => ?_, fun j hj1 hj2 hPj => ?_⟩
      · intro i hi
        cases i with
        | zero => simpa using hb
        | succ i' =>
          have := hm_spec i' (by omega)
          rw [show base - ((i' + 1 : Nat) : Int) = base - 1 - (i' : Int) by
            push_cast; ring]
          exact this
      · obtain ⟨j', rfl⟩ : ∃ j', j = j' + 1 := ⟨j - 1, by omega⟩
        have hPj' : ∀ i < j', active (base - 1 - (i : Int)) = true := by
          intro i hi
          have := hPj (i + 1) (by omega)
          rw [show base - ((i + 1 : Nat) : Int) = base - 1 - (i : Int) by
            push_cast; ring] at this
          exact this
        exact Nat.findGreatest_is_greatest (hm.symm ▸ (by omega : m < j'))
          (by omega) hPj'
    · rw [show currentStreak active base (n + 1) = 0 by
        simp [currentStreak, hb]]
      symm
      rw [Nat.findGreatest_eq_zero_iff]
      intro j hj1 hj2 hPj
      exact hb (by simpa using hPj 0 (by omega))

theorem suffLen_zero (active : Int → Bool) (start : Int) :
    suffLen active start 0 = 0 := rfl

theorem bestLen_zero (active : Int → Bool) (start : Int) :
    bestLen active start 0 = 0 := rfl

theorem suffLen_succ (active : Int → Bool) (start : Int) (c : Nat) :
    suffLen active start (c + 1)
      = if active (start + c) then suffLen active start c + 1 else 0 := by
  by_cases hc : active (start + c) = true
  · rw [if_pos hc]
    obtain ⟨m, hm⟩ : ∃ m, suffLen active start c = m := ⟨_, rfl⟩
    rw [hm]
    have hm_le : m ≤ c := hm ▸ Nat.findGreatest_le c
    have hm_spec : ∀ i < m, active (start + (c : Int) - 1 - i) = true :=
      hm ▸ Nat.findGreatest_spec
        (P := fun r => ∀ i < r, active (start + (c : Int) - 1 - i) = true)
        (Nat.zero_le c) (fun i hi => absurd hi (Nat.not_lt_zero i))
    unfold suffLen
    rw [Nat.findGreatest_eq_iff]
    refine ⟨by omega, fun _ => ?_, fun j hj1 hj2 hPj => ?_⟩
    · intro i hi
      cases i with
      | zero =>
        rw [show start + ((c + 1 : Nat) : Int) - 1 - ((0 : Nat) : Int)
            = start + c by push_cast; ring]
        exact hc
      | succ i' =>
        have := hm_spec i' (by omega)
        rw [show start + ((c + 1 : Nat) : Int) - 1 - ((i' + 1 : Nat) : Int)
            = start + (c : Int) - 1 - i' by push_cast; ring]
        exact this
    · obtain ⟨j', rfl⟩ : ∃ j', j = j' + 1 := ⟨j - 1, by omega⟩
      have hPj' : ∀ i < j', active (start + (c : Int) - 1 - i) = true := by
        intro i hi
        have := hPj (i + 1) (by omega)
        rw [show start + ((c + 1 : Nat) : Int) - 1 - ((i + 1 : Nat) : Int)
            = start + (c : Int) - 1 - i by push_cast; ring] at this
        exact this
      have hlt : Nat.findGreatest
          (fun r => ∀ i < r, active (start + (c : Int) - 1 - i) = true) c
            < j' := by
        rw [show Nat.findGreatest
            (fun r => ∀ i < r, active (start + (c : Int) - 1 - i) = true) c
          = suffLen active start c from rfl, hm]
        omega
      exact Nat.findGreatest_is_greatest hlt (by omega) hPj'
  · rw [if_neg hc]
    unfold suffLen
    rw [Nat.findGreatest_eq_zero_iff]
    intro j hj1 hj2 hPj
    apply hc
    have := hPj 0 (by omega)
    rw [show start + ((c + 1 : Nat) : Int) - 1 - ((0 : Nat) : Int)
        = start + c by push_cast; ring] at this
    exact this

theorem bestLen_succ (active : Int → Bool) (start : Int) (c : Nat) :
    bestLen active start (c + 1)
      = max (bestLen active start c) (suffLen active start (c + 1)) := by
  obtain ⟨B, hB⟩ : ∃ B, bestLen active start c = B := ⟨_, rfl⟩
  obtain ⟨S, hS⟩ : ∃ S, suffLen active start (c + 1) = S := ⟨_, rfl⟩
  rw [hB, hS]
  have hB_le : B ≤ c := hB ▸ Nat.findGreatest_le c
  have hB_spec : ∃ s < c + 1, s + B ≤ c ∧
      ∀ i < B, active (start + s + i) = true :=
    hB ▸ Nat.findGreatest_spec
      (P := fun L => ∃ s < c + 1, s + L ≤ c ∧
        ∀ i < L, active (start + s + i) = true)
      (Nat.zero_le c)
      ⟨0, by omega, by omega, fun i hi => absurd hi (Nat.not_lt_zero i)⟩
  have hB_greatest : ∀ j, B < j → j ≤ c →
      ¬ (∃ s < c + 1, s + j ≤ c ∧
          ∀ i < j, active (start + s + i) = true) := by
    intro j h1 h2
    exact Nat.findGreatest_is_greatest (hB.symm ▸ h1) h2
  have hS_le : S ≤ c + 1 := hS ▸ Nat.findGreatest_le (c + 1)
  have hS_spec : ∀ i < S, active (start + ((c + 1 : Nat) : Int) - 1 - i) = true :=
    hS ▸ Nat.findGreatest_spec
      (P := fun r => ∀ i < r,
        active (start + ((c + 1 : Nat) : Int) - 1 - i) = true)
      (Nat.zero_le (c + 1)) (fun i hi => absurd hi (Nat.not_lt_zero i))
  have hS_greatest : ∀ j, S < j → j ≤ c + 1 →
      ¬ (∀ i < j, active (start + ((c + 1 : Nat) : Int) - 1 - i) = true) := by
    intro j h1 h2
    exact Nat.findGreatest_is_greatest (hS.symm ▸ h1) h2
  unfold bestLen
  rw [Nat.findGreatest_eq_iff]
  refine ⟨by omega, fun hne => ?_, fun j hj1 hj2 hQ => ?_⟩
  · rcases Nat.le_total S B with hSB | hBS
    · rw [Nat.max_eq_left hSB]
      obtain ⟨s, hs1, hs2, hrun⟩ := hB_spec
      exact ⟨s, by omega, by omega, hrun⟩
    · rw [Nat.max_eq_right hBS]
      refine ⟨c + 1 - S, by omega, by omega, fun i hi => ?_⟩
      have harg : start + ((c + 1 - S : Nat) : Int) + (i : Nat)
          = start + ((c + 1 : Nat) : Int) - 1 - ((S - 1 - i : Nat) : Int) := by
        omega
      rw [harg]
      exact hS_spec (S - 1 - i) (by omega)
  · obtain ⟨s, hs1, hs2, hrun⟩ := hQ
    by_cases hcase : s + j ≤ c
    · exact hB_greatest j (by omega) (by omega) ⟨s, by omega, hcase, hrun⟩
    · have hsj : s + j = c + 1 := by omega
      apply hS_greatest j (by omega) (by omega)
      intro i hi
      have harg : start + ((c + 1 : Nat) : Int) - 1 - (i : Nat)
          = start + (s : Nat) + ((j - 1 - i : Nat) : Int) := by
        omega
      rw [harg]
      exact hrun (j - 1 - i) (by omega)

theorem longestAux_eq_bestLen (active : Int → Bool) (start : Int) :
    ∀ (fuel c run best : Nat), run = suffLen active start c →
      best = bestLen active start c →
      longestStreakAux active (start + (c : Int)) fuel run best
        = bestLen active start (c + fuel) := by
  intro fuel
  induction fuel with
  | zero =>
    intro c run best _ h2
    simpa [longestStreakAux] using h2
  | succ f ih =>
    intro c run best h1 h2
    unfold longestStreakAux
    by_cases hc : active (start + (c : Int)) = true
    · rw [if_pos hc]
      have hrun' : run + 1 = suffLen active start (c + 1) := by
        rw [suffLen_succ, if_pos hc, h1]
      have hbest' : max best (run + 1) = bestLen active start (c + 1) := by
        rw [bestLen_succ, h2, hrun']
      have harg : start + (c : Int) + 1 = start + ((c + 1 : Nat) : Int) := by
        push_cast; ring
      rw [harg, ih (c + 1) (run + 1) (max best (run + 1)) hrun' hbest',
        show c + 1 + f = c + (f + 1) by omega]
    · rw [if_neg hc]
      have hrun' : (0 : Nat) = suffLen active start (c + 1) := by
        rw [suffLen_succ, if_neg hc]
      have hbest' : best = bestLen active start (c + 1) := by
        rw [bestLen_succ, ← hrun', Nat.max_zero]
        exact h2
      have harg : start + (c : Int) + 1 = start + ((c + 1 : Nat) : Int) := by
        push_cast; ring
      rw [harg, ih (c + 1) 0 best hrun' hbest',
        show c + 1 + f = c + (f + 1) by omega]

/-! ## Claim C6 -/

/-- **C6.** `apply_study_time_total_ms` modifies at most the one ledger row
for its four-part identity: legacy progress rows, todos, settings and the
review-set tables are untouched, and every other ledger identity reads the
same value afterwards. -/
theorem C6_apply_delta_frame (db : DB) (k : LedgerKey) (t : Int) :
    (apply_study_time_total_ms db k t).2.progress = db.progress ∧
    (apply_study_time_total_ms db k t).2.todos = db.todos ∧
    (apply_study_time_total_ms db k t).2.settings = db.settings ∧
    (apply_study_time_total_ms db k t).2.review_lists = db.review_lists ∧
    (apply_study_time_total_ms db k t).2.review_items = db.review_items ∧
    ∀ k' : LedgerKey, k' ≠ k →
      lookupEntry (apply_study_time_total_ms db k t).2.ledger k'
          = lookupEntry db.ledger k' := by
  refine ⟨rfl, rfl, rfl, rfl, rfl, ?_⟩
  intro k' hk
  exact storedMs_applyLedger_ne db.ledger k k' t (Ne.symm hk)

/-! ### Claims C5 and C10: streaks and subject visibility -/

/-- Inside the window the range filter of the streak query is redundant:
the day's activity equals the claim-side activity. -/
theorem streakActive_eq_spec (db : DB) (u : String) (start base d : Int)
    (h0 : 0 ≤ start) (hd1 : start ≤ d) (hd2 : d ≤ base)
    (hlim : base + 1 < (rdLimit : Int)) :
    streakActive db u (isoOfRd start) (isoOfRd (base + 1)) d
      = specDayActive db u d := by
  have hle : strLe (isoOfRd start) (isoOfRd d) = true :=
    isoOfRd_strLe h0 hd1 (by omega)
  have hlt : strLt (isoOfRd d) (isoOfRd (base + 1)) = true :=
    isoOfRd_strLt (by omega) (by omega) (by omega)
  have hfilter : ∀ e : LedgerEntry,
      (e.key.user_id == u
        && strLe (isoOfRd start) e.key.date_key
        && strLt e.key.date_key (isoOfRd (base + 1))
        && (e.key.date_key == isoOfRd d))
      = (e.key.user_id == u && (e.key.date_key == isoOfRd d)) := by
    intro e
    by_cases hk : (e.key.date_key == isoOfRd d) = true
    · have hkey : e.key.date_key = isoOfRd d := by simpa using hk
      rw [hkey, hle, hlt]
      simp
    · rw [Bool.not_eq_true] at hk
      simp [hk]
  unfold streakActive specDayActive streakHours specDayHours sumLedgerMs
  rw [List.filter_congr (fun e _ => hfilter e)]

/-- **C5.** For every ledger state, user, parsable date key and
`streak_days` (coerced to a minimum of 1), the dashboard's current streak
is the greatest count of consecutive claim-side-active days walking
backward from the date key, and its longest streak is the length of the
longest run of consecutive claim-side-active days anywhere in the trailing
window; and on the concrete scenario with hours 1, 0, 1, 1 over four
consecutive days ending at the date key, current = 2 and longest = 2. -/
theorem C5_streaks (db : DB) (u date_key : String) (streak_days : Int)
    (y m d : Nat) (hparse : parseDateKey date_key = some (y, m, d))
    (h0 : 0 ≤ (rdOfCivil y m d : Int) - ((streakLenOf streak_days : Int) - 1))
    (hlim : (rdOfCivil y m d : Int) + 1 < (rdLimit : Int)) :
    1 ≤ streakLenOf streak_days ∧
    (∃ sd, get_dashboard_summary db u date_key streak_days = some sd ∧
      sd.streak_current
        = Nat.findGreatest
            (fun k => ∀ i < k,
              specDayActive db u ((rdOfCivil y m d : Int) - (i : Int)) = true)
            (streakLenOf streak_days) ∧
      sd.streak_longest
        = Nat.findGreatest
            (fun L => ∃ s < streakLenOf streak_days + 1,
              s + L ≤ streakLenOf streak_days ∧
              ∀ i < L, specDayActive db u
                ((rdOfCivil y m d : Int)
                  - ((streakLenOf streak_days : Int) - 1)
                  + (s : Int) + (i : Int)) = true)
            (streakLenOf streak_days)) ∧
    (get_dashboard_summary streakDB "u" "2026-01-08" 4).map
        (fun sd => (sd.streak_current, sd.streak_longest)) = some (2, 2) := by
  have hn1 : 1 ≤ streakLenOf streak_days := by
    unfold streakLenOf; split <;> omega
  refine ⟨hn1, ?_, ?_⟩
  · have hget : get_dashboard_summary db u date_key streak_days
        = some { date_key := date_key,
                 week_daily_by_subject := weekDailyBySubject db u
                   ((rdOfCivil y m d : Int)
                     - (weekdayOfRd (rdOfCivil y m d) : Int)),
                 streak_current :=
                   (dashboardStreak db u (rdOfCivil y m d : Int)
                     streak_days).1,
                 streak_longest :=
                   (dashboardStreak db u (rdOfCivil y m d : Int)
                     streak_days).2 } := by
      unfold get_dashboard_summary
      rw [hparse]
    refine ⟨_, hget, ?_, ?_⟩
    · show (dashboardStreak db u (rdOfCivil y m d : Int) streak_days).1 = _
      have hcur : (dashboardStreak db u (rdOfCivil y m d : Int)
            streak_days).1
          = currentStreak
              (streakActive db u
                (isoOfRd ((rdOfCivil y m d : Int)
                  - ((streakLenOf streak_days : Int) - 1)))
                (isoOfRd ((rdOfCivil y m d : Int) + 1)))
              (rdOfCivil y m d : Int) (streakLenOf streak_days) := rfl
      rw [hcur, currentStreak_eq_findGreatest]
      apply findGreatest_congr
      intro k hk
      have hb : forall i : Nat, i < k ->
          streakActive db u
              (isoOfRd ((rdOfCivil y m d : Int)
                - ((streakLenOf streak_days : Int) - 1)))
              (isoOfRd ((rdOfCivil y m d : Int) + 1))
              ((rdOfCivil y m d : Int) - (i : Int))
            = specDayActive db u ((rdOfCivil y m d : Int) - (i : Int)) := by
        intro i hi
        exact streakActive_eq_spec db u _ _ _ h0 (by omega) (by omega) hlim
      constructor
      · intro h i hi
        rw [<- hb i hi]
        exact h i hi
      · intro h i hi
        rw [hb i hi]
        exact h i hi
    · show (dashboardStreak db u (rdOfCivil y m d : Int) streak_days).2 = _
      have hlong : (dashboardStreak db u (rdOfCivil y m d : Int)
            streak_days).2
          = longestStreakAux
              (streakActive db u
                (isoOfRd ((rdOfCivil y m d : Int)
                  - ((streakLenOf streak_days : Int) - 1)))
                (isoOfRd ((rdOfCivil y m d : Int) + 1)))
              ((rdOfCivil y m d : Int)
                - ((streakLenOf streak_days : Int) - 1))
              (streakLenOf streak_days) 0 0 := rfl
      have haux := longestAux_eq_bestLen
        (streakActive db u
          (isoOfRd ((rdOfCivil y m d : Int)
            - ((streakLenOf streak_days : Int) - 1)))
          (isoOfRd ((rdOfCivil y m d : Int) + 1)))
        ((rdOfCivil y m d : Int) - ((streakLenOf streak_days : Int) - 1))
        (streakLenOf streak_days) 0 0 0
        (suffLen_zero _ _).symm (bestLen_zero _ _).symm
      simp only [Nat.cast_zero, add_zero, Nat.zero_add] at haux
      rw [hlong, haux]
      unfold bestLen
      apply findGreatest_congr
      intro L hL
      have hb : forall s i : Nat, s + L <= streakLenOf streak_days ->
          i < L ->
          streakActive db u
              (isoOfRd ((rdOfCivil y m d : Int)
                - ((streakLenOf streak_days : Int) - 1)))
              (isoOfRd ((rdOfCivil y m d : Int) + 1))
              ((rdOfCivil y m d : Int)
                - ((streakLenOf streak_days : Int) - 1)
                + (s : Int) + (i : Int))
            = specDayActive db u
              ((rdOfCivil y m d : Int)
                - ((streakLenOf streak_days : Int) - 1)
                + (s : Int) + (i : Int)) := by
        intro s i hs hi
        exact streakActive_eq_spec db u _ _ _ h0 (by omega) (by omega) hlim
      constructor
      · rintro ⟨s, hs1, hs2, hrun⟩
        refine ⟨s, hs1, hs2, fun i hi => ?_⟩
        rw [<- hb s i hs2 hi]
        exact hrun i hi
      · rintro ⟨s, hs1, hs2, hrun⟩
        refine ⟨s, hs1, hs2, fun i hi => ?_⟩
        rw [hb s i hs2 hi]
        exact hrun i hi
  · with_unfolding_all rfl

/-- Closed witness for C5 at the concrete scenario. -/
theorem C5_streaks_witness :
    parseDateKey "2026-01-08" = some (2026, 1, 8) ∧
    0 ≤ (rdOfCivil 2026 1 8 : Int) - ((streakLenOf 4 : Int) - 1) ∧
    (rdOfCivil 2026 1 8 : Int) + 1 < (rdLimit : Int) ∧
    (get_dashboard_summary streakDB "u" "2026-01-08" 4).map
        (fun sd => (sd.streak_current, sd.streak_longest)) = some (2, 2) :=
  ⟨rfl, by decide, by decide,
    (C5_streaks streakDB "u" "2026-01-08" 4 2026 1 8 rfl (by decide)
      (by decide)).2.2⟩

/-- **C10.** The visibility resolver yields no filtering (`none`) when the
`subjects` setting is absent, blank, malformed JSON or not a JSON array;
a parsed array keeps exactly the entries that are objects with a string
`name` not explicitly marked `visible: false` (a missing `visible` field
counts as visible); with no filtering the grid's subject universe is every
subject observed in-week, sorted; and a valid empty array empties the
universe, so every one of the 7 days maps to an empty subject map. -/
theorem C10_subject_visibility (db : DB) (u : String) (weekStart : Int)
    (v : String) :
    (get_setting db.settings "subjects" = none →
      _get_visible_subject_names_from_settings db = none) ∧
    (get_setting db.settings "subjects" = some v → pyStrip v = "" →
      _get_visible_subject_names_from_settings db = none) ∧
    (get_setting db.settings "subjects" = some v → pyStrip v ≠ "" →
      json_loads v = none →
      _get_visible_subject_names_from_settings db = none) ∧
    (∀ j, get_setting db.settings "subjects" = some v → pyStrip v ≠ "" →
      json_loads v = some j → (∀ xs, j ≠ Json.arr xs) →
      _get_visible_subject_names_from_settings db = none) ∧
    (∀ xs, get_setting db.settings "subjects" = some v → pyStrip v ≠ "" →
      json_loads v = some (Json.arr xs) →
      _get_visible_subject_names_from_settings db
        = some (xs.filterMap pickVisibleName)) ∧
    (∀ j, (∀ fs, j ≠ Json.obj fs) → pickVisibleName j = none) ∧
    (∀ fs, (∀ s, jsonGet fs "name" ≠ some (Json.str s)) →
      pickVisibleName (Json.obj fs) = none) ∧
    (∀ fs name, jsonGet fs "name" = some (Json.str name) →
      jsonGet fs "visible" = none →
      pickVisibleName (Json.obj fs) = some name) ∧
    subjectsInWeek db u (isoOfRd weekStart) (isoOfRd (weekStart + 7)) none
      = ((db.ledger.filter (fun e => e.key.user_id == u
          && strLe (isoOfRd weekStart) e.key.date_key
          && strLt e.key.date_key (isoOfRd (weekStart + 7)))).map
          (fun e => e.key.subject)).dedup ∧
    (_get_visible_subject_names_from_settings db = none →
      weekDailyBySubject db u weekStart
        = (List.range 7).map (fun i =>
            (isoOfRd (weekStart + (i : Int)),
             (sortBy strLe (subjectsInWeek db u (isoOfRd weekStart)
                 (isoOfRd (weekStart + 7)) none)).map
               (fun name => (name,
                 hoursOfMs (weekCellMs db u (isoOfRd weekStart)
                   (isoOfRd (weekStart + 7))
                   (isoOfRd (weekStart + (i : Int))) name)))))) ∧
    (_get_visible_subject_names_from_settings db = some [] →
      weekDailyBySubject db u weekStart
        = (List.range 7).map (fun i =>
            (isoOfRd (weekStart + (i : Int)), ([] : List (String × ℚ))))) := by
  refine ⟨?_, ?_, ?_, ?_, ?_, ?_, ?_, ?_, ?_, ?_, ?_⟩
  · intro h
    unfold _get_visible_subject_names_from_settings
    rw [h]
  · intro h hb
    simp only [_get_visible_subject_names_from_settings, h]
    rw [if_pos hb]
  · intro h hb hj
    simp only [_get_visible_subject_names_from_settings, h]
    rw [if_neg hb, hj]
  · intro j h hb hj hne
    simp only [_get_visible_subject_names_from_settings, h]
    rw [if_neg hb, hj]
    cases j
    case arr xs => exact absurd rfl (hne xs)
    all_goals rfl
  · intro xs h hb hj
    simp only [_get_visible_subject_names_from_settings, h]
    rw [if_neg hb, hj]
  · intro j hne
    cases j
    case obj fs => exact absurd rfl (hne fs)
    all_goals rfl
  · intro fs hne
    cases hn : jsonGet fs "name" with
    | none => simp [pickVisibleName, hn]
    | some j =>
      cases j
      case str s => exact absurd hn (hne s)
      all_goals simp [pickVisibleName, hn]
  · intro fs name hn hv
    simp [pickVisibleName, hn, hv]
  · exact congrArg List.dedup (congrArg (List.map _)
      (List.filter_congr (fun e _ => Bool.and_true _)))
  · intro h
    simp only [weekDailyBySubject, h, subjectOrder]
  · intro h
    simp only [weekDailyBySubject, h, subjectOrder, List.map_nil]

/-- Closed witness for C10: with `subjects = "[]"` the resolver returns
the empty universe and the grid's 7 days are all empty. -/
theorem C10_subject_visibility_witness :
    _get_visible_subject_names_from_settings db10 = some [] ∧
    weekDailyBySubject db10 "u" (rdOfCivil 2026 1 5 : Int)
      = (List.range 7).map (fun i =>
          (isoOfRd ((rdOfCivil 2026 1 5 : Int) + (i : Int)),
           ([] : List (String × ℚ)))) :=
  ⟨(C10_subject_visibility db10 "u" (rdOfCivil 2026 1 5 : Int)
      "[]").2.2.2.2.1 [] rfl (by decide) rfl,
   (C10_subject_visibility db10 "u" (rdOfCivil 2026 1 5 : Int)
      "[]").2.2.2.2.2.2.2.2.2.2
     ((C10_subject_visibility db10 "u" (rdOfCivil 2026 1 5 : Int)
        "[]").2.2.2.2.1 [] rfl (by decide) rfl)⟩

end CPADashboard

